import Mathlib

/-!
# Verification of the `igym.memory` subsystem

Shallow embedding of the memory subsystem of the repository
(`src/igym/memory/base.py`, `list_memory.py`, `tree_memory.py`,
`type.py`) in Lean 4, together with theorems settling the frozen
claims about the natural-language specification.

Modelling conventions:
* Python `dict`s become insertion-ordered association lists
  (`List (String × β)`); lookup finds the first (unique) matching key,
  update rewrites in place, insertion appends.
* `datetime.now()` becomes an explicit `now : Nat` parameter threaded
  through every operation that reads the clock.
* `parse_duration` strings are represented by their parsed value in
  seconds (`duration : Option Nat`).
* Python exceptions become `Except PyErr`; the `PyErr` constructors
  record which concrete Python exception escapes, including the
  `NotImplementedError` raised from inside
  `iGymMemoryItemNotFound.__init__` and the `TypeError` /
  `UnboundLocalError` that some code paths raise.
* `**kwargs` of `BaseMemory.read` only ever carries the key
  `accessed_via`; it is modelled by the `accessed_via` parameter, and
  passing it twice (Python `TypeError: multiple values for keyword`)
  is modelled by `PyErr.typeErrorDuplicateKw`.
-/

set_option linter.unusedVariables false
set_option synthInstance.maxSize 4000
set_option maxRecDepth 4000

namespace IGym

/-! ## Association-list helpers (Python `dict` with string keys) -/

/-- First value bound to key `k` (Python `d[k]` / `d.get(k)`). -/
def alFind {β : Type} (k : String) : List (String × β) → Option β
  | [] => none
  | (k', v) :: rest => if k' = k then some v else alFind k rest

/-- Python `k in d`. -/
def alMem {β : Type} (k : String) (l : List (String × β)) : Bool :=
  (alFind k l).isSome

/-- Python `d[k] = v`: update in place if the key exists, else append
(insertion order preserved, as for a Python `dict`). -/
def alInsert {β : Type} (k : String) (v : β) : List (String × β) → List (String × β)
  | [] => [(k, v)]
  | (k', v') :: rest =>
    if k' = k then (k', v) :: rest else (k', v') :: alInsert k v rest

/-- Python `del d[k]`. -/
def alErase {β : Type} (k : String) : List (String × β) → List (String × β)
  | [] => []
  | (k', v') :: rest => if k' = k then rest else (k', v') :: alErase k rest

/-! ## Enumerations (`igym/memory/type.py`) -/

/-- `MemoryItemState` in `type.py`. -/
inductive MemoryItemState
  | EXPIRED
  | WRITING
  | NORMAL
deriving DecidableEq

/-- `MemoryItemReadProtocol` in `type.py`. -/
inductive MemoryItemReadProtocol
  | BURN_AFTER_READ
  | KEEP
deriving DecidableEq

/-- `MemoryItemModifyProtocol` in `type.py`. -/
inductive MemoryItemModifyProtocol
  | OVERWRITE
  | APPEND
deriving DecidableEq

/-- Opaque content payload (`content: Any`).  A string payload has no
`append` attribute; a list payload supports `append`. -/
inductive Content
  | str (s : String)
  | num (n : Int)
  | clist (xs : List Content)

mutual

/-- Decidable equality for the nested `Content` inductive. -/
def Content.decEq : (a b : Content) → Decidable (a = b)
  | Content.str a, Content.str b =>
    if h : a = b then Decidable.isTrue (by rw [h]) else Decidable.isFalse (by simp [h])
  | Content.num a, Content.num b =>
    if h : a = b then Decidable.isTrue (by rw [h]) else Decidable.isFalse (by simp [h])
  | Content.clist xs, Content.clist ys =>
    match Content.decEqList xs ys with
    | Decidable.isTrue h => Decidable.isTrue (by rw [h])
    | Decidable.isFalse h => Decidable.isFalse (by simp [h])
  | Content.str _, Content.num _ => Decidable.isFalse (fun h => Content.noConfusion h)
  | Content.str _, Content.clist _ => Decidable.isFalse (fun h => Content.noConfusion h)
  | Content.num _, Content.str _ => Decidable.isFalse (fun h => Content.noConfusion h)
  | Content.num _, Content.clist _ => Decidable.isFalse (fun h => Content.noConfusion h)
  | Content.clist _, Content.str _ => Decidable.isFalse (fun h => Content.noConfusion h)
  | Content.clist _, Content.num _ => Decidable.isFalse (fun h => Content.noConfusion h)

/-- Decidable equality for lists of `Content`. -/
def Content.decEqList : (xs ys : List Content) → Decidable (xs = ys)
  | [], [] => Decidable.isTrue rfl
  | x :: xs, y :: ys =>
    match Content.decEq x y, Content.decEqList xs ys with
    | Decidable.isTrue h1, Decidable.isTrue h2 => Decidable.isTrue (by rw [h1, h2])
    | Decidable.isFalse h1, _ => Decidable.isFalse (by simp [h1])
    | _, Decidable.isFalse h2 => Decidable.isFalse (by simp [h2])
  | [], _ :: _ => Decidable.isFalse (by simp)
  | _ :: _, [] => Decidable.isFalse (by simp)

end

instance : DecidableEq Content := Content.decEq

/-- Which concrete Python exception escapes an operation.  `type.py`
matters here: `iGymMemoryItemNotFound.__init__` dispatches on the
class name of its optional `memory` argument and itself raises
`NotImplementedError` for `ListMemory`, `DictMemory`, `BaseMemory`
and for `memory=None`; only the `TreeMemory` branch builds a message
and lets the `iGymMemoryItemNotFound` instance be raised. -/
inductive PyErr
  | duplicateMemUID          -- iGymMemoryDuplicateUIDError
  | itemDuplicateUID         -- iGymMemoryItemDuplicateUIDError
  | memoryNotFound           -- iGymMemoryNotFound
  | itemNotFound             -- iGymMemoryItemNotFound (TreeMemory branch only)
  | notImplemented           -- NotImplementedError
  | unappendable             -- iGymMemoryUnappendableError
  | typeErrorDuplicateKw     -- TypeError: multiple values for keyword argument
  | typeErrorBadIndex        -- TypeError raised by ListMemory for a non int/str index
  | unboundLocalIndex        -- UnboundLocalError: local variable referenced before assignment
  | keyError                 -- KeyError on a raw dict access
  | valueError               -- ValueError from list.remove on a missing element
  | assertionError           -- failed assert statement
  | fuelExhausted            -- models Python non-termination on cyclic link chains
deriving DecidableEq

/-- Which memory class is handed to `iGymMemoryItemNotFound.__init__`
as the `memory` argument (`None` becomes `none`). -/
inductive MemKind
  | base
  | list
  | dict
  | tree
deriving DecidableEq

/-- Mirrors `iGymMemoryItemNotFound.__init__` (`type.py` lines 56-71):
constructing the exception raises `NotImplementedError` except when
`memory` is a `TreeMemory`, in which case the `iGymMemoryItemNotFound`
itself escapes. -/
def itemNotFoundRaise (memory : Option MemKind) : PyErr :=
  match memory with
  | some MemKind.tree => PyErr.itemNotFound
  | _ => PyErr.notImplemented

/-! ## `MemoryItem` (`base.py` lines 22-202) -/

/-- One entry of the append-only `history` list.  `update_history`
stores the timestamp, the action, the state and content at call time,
plus the optional keyword arguments that were passed
(`reader` / `modifier` / `new_content`) and the formatted
`accessed_via` string. -/
structure HistEntry where
  timestamp : Nat
  action : String
  state : MemoryItemState
  content : Content
  reader : Option (Option String) := none
  modifier : Option (Option String) := none
  new_content : Option Content := none
  accessed_via : Option String := none
deriving DecidableEq

/-- `MemoryItem` fields (`base.py` lines 22-43).  `duration` holds the
parsed value of the duration string in seconds; `bind_args`/`others`
are opaque string-keyed payload dicts. -/
structure MemoryItem where
  uid : String
  content : Content
  source : String
  timestamp : Nat
  m_protocol : MemoryItemModifyProtocol := MemoryItemModifyProtocol.OVERWRITE
  r_protocol : MemoryItemReadProtocol := MemoryItemReadProtocol.KEEP
  bind_func : Option String := none
  bind_args : List (String × Content) := []
  others : List (String × Content) := []
  state : MemoryItemState := MemoryItemState.NORMAL
  duration : Option Nat := none
  end_time : Option Nat := none
  read_count : Nat := 0
  last_access_time : Option Nat := none
  last_modify_time : Option Nat := none
  last_reader : Option String := none
  last_modifier : Option String := none
  history : List HistEntry := []
deriving DecidableEq

namespace MemoryItem

/-- `MemoryItem.update_history` (`base.py` lines 124-140). -/
def update_history (it : MemoryItem) (now : Nat) (action : String)
    (accessed_via : Option (String × String))
    (reader : Option (Option String)) (modifier : Option (Option String))
    (new_content : Option Content) : MemoryItem :=
  let entry : HistEntry :=
    { timestamp := now
      action := action
      state := it.state
      content := it.content
      reader := reader
      modifier := modifier
      new_content := new_content
      accessed_via := accessed_via.map (fun p => p.1 ++ "->" ++ p.2) }
  { it with history := it.history ++ [entry] }

/-- `MemoryItem._validate_expiration` (`base.py` lines 89-104): when
both `duration` and `end_time` are set, keep whichever expires first
and clear the other. -/
def validate_expiration (it : MemoryItem) : MemoryItem :=
  match it.duration, it.end_time with
  | some d, some e =>
    if it.timestamp + d < e then { it with end_time := none }
    else { it with duration := none }
  | _, _ => it

/-- `MemoryItem.get_expiration_time` (`base.py` lines 110-115). -/
def get_expiration_time (it : MemoryItem) : Option Nat :=
  match it.duration with
  | some d => some (it.timestamp + d)
  | none => it.end_time

/-- `MemoryItem.is_expired` (`base.py` lines 117-122). -/
def is_expired (it : MemoryItem) (now : Nat) : Bool :=
  match it.get_expiration_time with
  | none => false
  | some t => now > t

/-- `MemoryItem.is_accessible` (`base.py` lines 200-202). -/
def is_accessible (it : MemoryItem) (now : Nat) : Bool :=
  it.state = MemoryItemState.NORMAL && !(it.is_expired now)

end MemoryItem

/-- Constructing a `MemoryItem` runs pydantic's `model_post_init`
(`base.py` lines 106-108): `_validate_expiration` followed by
`update_history("init")`.  This runs on every construction, including
reconstruction inside `BaseMemory.load`. -/
def mkMemoryItem (it : MemoryItem) (now : Nat) : MemoryItem :=
  (it.validate_expiration).update_history now "init" none none none none

namespace MemoryItem

/-- Result of `MemoryItem.read`: the state sentinel, the raw content,
or (`return_meta=True`) the whole item. -/
inductive ReadResult
  | state (s : MemoryItemState)
  | content (c : Content)
  | meta (it : MemoryItem)
deriving DecidableEq

/-- `MemoryItem.read` (`base.py` lines 142-167).  Returns the result
together with the mutated item. -/
def read (it : MemoryItem) (now : Nat) (return_meta : Bool)
    (reader : Option String) (accessed_via : Option (String × String)) :
    ReadResult × MemoryItem :=
  if it.state ≠ MemoryItemState.NORMAL then
    (ReadResult.state it.state, it)
  else if it.is_expired now then
    let it := { it with state := MemoryItemState.EXPIRED }
    (ReadResult.state it.state, it)
  else
    let it := { it with
      read_count := it.read_count + 1
      last_access_time := some now
      last_reader := reader }
    let it :=
      if it.r_protocol = MemoryItemReadProtocol.BURN_AFTER_READ then
        { it with state := MemoryItemState.EXPIRED }
      else it
    let it := it.update_history now "read" accessed_via (some reader) none none
    if return_meta then (ReadResult.meta it, it) else (ReadResult.content it.content, it)

/-- Result of `MemoryItem.modify`: `True` on success or the state
sentinel; appending to non-list content raises. -/
inductive ModifyResult
  | ok
  | state (s : MemoryItemState)
deriving DecidableEq

/-- `MemoryItem.modify` (`base.py` lines 169-198). -/
def modify (it : MemoryItem) (now : Nat) (new_content : Content)
    (modifier : Option String) (protocol : Option MemoryItemModifyProtocol)
    (accessed_via : Option (String × String)) :
    Except PyErr (ModifyResult × MemoryItem) :=
  if it.state ≠ MemoryItemState.NORMAL then
    Except.ok (ModifyResult.state it.state, it)
  else if it.is_expired now then
    let it := { it with state := MemoryItemState.EXPIRED }
    Except.ok (ModifyResult.state it.state, it)
  else
    let proto := protocol.getD it.m_protocol
    match proto with
    | MemoryItemModifyProtocol.APPEND =>
      match it.content with
      | Content.clist xs =>
        let it := { it with content := Content.clist (xs ++ [new_content]) }
        let it := { it with last_modify_time := some now, last_modifier := modifier }
        let it := it.update_history now "modify" accessed_via none (some modifier) (some new_content)
        Except.ok (ModifyResult.ok, it)
      | _ => Except.error PyErr.unappendable
    | MemoryItemModifyProtocol.OVERWRITE =>
      let it := { it with content := new_content }
      let it := { it with last_modify_time := some now, last_modifier := modifier }
      let it := it.update_history now "modify" accessed_via none (some modifier) (some new_content)
      Except.ok (ModifyResult.ok, it)

end MemoryItem

/-! ## `BaseMemory` and the registry (`base.py` lines 204-577)

The process-wide `MemorySystem` registry maps container uid to
container; every cross-container operation goes through it.  A whole
system state is therefore one `Registry` value.  Python mutates
container objects in place; here each operation returns the updated
registry.  When an operation raises, the `Except.error` result does
not carry the partially mutated registry; no theorem below depends on
the state left behind after an exception. -/

/-- `BaseMemory` fields (`base.py` lines 268-273): owned items, the
forward link table `{local_key: (target_memory_uid, target_key)}` and
the reverse index `{remote_memory_uid: [(their_local_key, this_item_uid)]}`. -/
structure BaseMemory where
  uid : String
  items : List (String × MemoryItem) := []
  links : List (String × (String × String)) := []
  reverse_links : List (String × List (String × String)) := []
deriving DecidableEq

/-- The `MemorySystem` singleton's `_memories` dict. -/
abbrev Registry := List (String × BaseMemory)

/-- `MemorySystem.get_memory` (`base.py` lines 224-227): raises
`iGymMemoryNotFound` on an unknown uid. -/
def getMemory (sys : Registry) (uid : String) : Except PyErr BaseMemory :=
  match alFind uid sys with
  | some m => Except.ok m
  | none => Except.error PyErr.memoryNotFound

/-- Store a (mutated) container back under its uid. -/
def putMemory (sys : Registry) (m : BaseMemory) : Registry :=
  alInsert m.uid m sys

/-- `BaseMemory.__init__` + `MemorySystem.register_memory`
(`base.py` lines 213-218, 268-273): a fresh container instance whose
uid is already bound (necessarily to a different instance) raises
`iGymMemoryDuplicateUIDError`. -/
def newBaseMemory (sys : Registry) (uid : String) : Except PyErr Registry :=
  if alMem uid sys then Except.error PyErr.duplicateMemUID
  else Except.ok (alInsert uid { uid := uid } sys)

/-- `BaseMemory._resolve_link` (`base.py` lines 289-304): if
`identifier` is a forward-link key, fetch the target container from
the registry (which may raise `iGymMemoryNotFound`) and return it with
the target item uid and the `(self.uid, identifier)` access pair. -/
def resolveLink (sys : Registry) (m : BaseMemory) (identifier : String) :
    Except PyErr (Option (BaseMemory × String × (String × String))) :=
  match alFind identifier m.links with
  | some (tmu, tiu) =>
    match alFind tmu sys with
    | some tm => Except.ok (some (tm, tiu, (m.uid, identifier)))
    | none => Except.error PyErr.memoryNotFound
  | none => Except.ok none

/-- `BaseMemory.add` (`base.py` lines 306-315).  The item is stored by
reference, set to `WRITING` and then unconditionally back to `NORMAL`
(whatever its previous state), and a history entry `"added"` is
recorded on the stored object.  Returns the item uid. -/
def memAdd (sys : Registry) (selfUid : String) (item : MemoryItem) (now : Nat) :
    Except PyErr (Registry × String) := do
  let m ← getMemory sys selfUid
  if alMem item.uid m.items then Except.error PyErr.itemDuplicateUID
  else
    let item := { item with state := MemoryItemState.WRITING }
    let item := { item with state := MemoryItemState.NORMAL }
    let item := item.update_history now "added" none none none none
    Except.ok (putMemory sys { m with items := alInsert item.uid item m.items }, item.uid)

/-- The `while True` resolution loop of `BaseMemory.request_link`
(`base.py` lines 348-354): follow the target container's own link
table until a true owner is found.  `fuel` bounds the number of hops;
running out models Python looping forever on a cyclic chain.  A
dead-end raises `iGymMemoryItemNotFound(item_uid, mem_uid)` whose
constructor (no `memory` argument) raises `NotImplementedError`. -/
def resolveOwnerLoop (sys : Registry) :
    Nat → BaseMemory → String → Except PyErr (BaseMemory × String)
  | 0, _, _ => Except.error PyErr.fuelExhausted
  | fuel + 1, tm, tid =>
    if alMem tid tm.items then Except.ok (tm, tid)
    else
      match alFind tid tm.links with
      | some (tmu2, tid2) =>
        match alFind tmu2 sys with
        | some tm2 => resolveOwnerLoop sys fuel tm2 tid2
        | none => Except.error PyErr.memoryNotFound
      | none => Except.error (itemNotFoundRaise none)

/-- `BaseMemory.request_link` (`base.py` lines 318-359).  Salient
source facts, all mirrored here: the function returns `None` on every
path (the docstring promises the source item uid, but there is no
`return` statement carrying it); the stored forward pair combines the
ORIGINAL `target_mem_uid` with the RESOLVED item uid (the loop
reassigns the local variables `target_memory` / `target_item_uid`,
never `target_mem_uid`); the reverse entry is appended on the resolved
owner; the duplicate check consults `self.items` only, not
`self._links`. -/
def requestLink (sys : Registry) (selfUid targetMemUid targetItemUid : String)
    (sourceItemUid : Option String) (fuel : Nat) :
    Except PyErr (Registry × Option String) := do
  let m ← getMemory sys selfUid
  if targetMemUid = m.uid then Except.ok (sys, none)
  else
    let src := sourceItemUid.getD targetItemUid
    if alMem src m.items then Except.error PyErr.itemDuplicateUID
    else do
      let tm0 ← getMemory sys targetMemUid
      let ow ← resolveOwnerLoop sys fuel tm0 targetItemUid
      let owner := ow.1
      let resolvedUid := ow.2
      let m := { m with links := alInsert src (targetMemUid, resolvedUid) m.links }
      if owner.uid = m.uid then
        -- the resolved owner is this very container object (a chain leading
        -- back to self); both mutations hit the same object
        let rl := (alFind m.uid m.reverse_links).getD []
        let m := { m with reverse_links := alInsert m.uid (rl ++ [(src, resolvedUid)]) m.reverse_links }
        Except.ok (putMemory sys m, none)
      else
        let rl := (alFind m.uid owner.reverse_links).getD []
        let owner := { owner with
          reverse_links := alInsert m.uid (rl ++ [(src, resolvedUid)]) owner.reverse_links }
        Except.ok (putMemory (putMemory sys m) owner, none)

/-- `BaseMemory.revoke_link` (`base.py` lines 364-377): remove the
forward entry, then filter every pair with this local key out of the
remote owner's reverse bucket for this container.  An unknown
identifier is a silent no-op. -/
def revokeLink (sys : Registry) (selfUid identifier : String) : Except PyErr Registry := do
  let m ← getMemory sys selfUid
  match alFind identifier m.links with
  | none => Except.ok sys
  | some (tmu, _) =>
    let m := { m with links := alErase identifier m.links }
    if tmu = m.uid then
      -- alias case: the link names this container itself
      let rl := ((alFind selfUid m.reverse_links).getD []).filter (fun p => p.1 ≠ identifier)
      Except.ok (putMemory sys { m with reverse_links := alInsert selfUid rl m.reverse_links })
    else do
      let sys := putMemory sys m
      let tm ← getMemory sys tmu
      let rl := ((alFind selfUid tm.reverse_links).getD []).filter (fun p => p.1 ≠ identifier)
      Except.ok (putMemory sys { tm with reverse_links := alInsert selfUid rl tm.reverse_links })

/-- The cascading-invalidation loop of `BaseMemory.delete`
(`base.py` lines 406-415): for every container uid recorded in this
container's `reverse_links`, delete every one of its forward entries
whose stored pair equals `(self.uid, identifier)`. -/
def stripLinksTo (selfUid identifier : String) :
    Registry → List String → Except PyErr Registry
  | sys, [] => Except.ok sys
  | sys, memUid :: rest => do
    let mem ← getMemory sys memUid
    let mem := { mem with links := mem.links.filter (fun kv => kv.2 ≠ (selfUid, identifier)) }
    stripLinksTo selfUid identifier (putMemory sys mem) rest

/-- The local-item part of `BaseMemory.delete` (`base.py` lines
404-427): strip remote forward entries via the reverse index, set the
removed item `EXPIRED` with a `"deleted"` history entry (visible only
to external holders of the object once it leaves `items`), remove it,
and return `True`.  An unknown identifier returns `False` or raises
`iGymMemoryItemNotFound(item_uid, mem_uid)` — whose constructor,
called without a `memory` argument, raises `NotImplementedError`. -/
def memDeleteLocal (sys : Registry) (selfUid identifier : String)
    (return_false_if_error : Bool) (now : Nat) : Except PyErr (Registry × Bool) := do
  let m ← getMemory sys selfUid
  if alMem identifier m.items then do
    let sys ← stripLinksTo selfUid identifier sys (m.reverse_links.map Prod.fst)
    let m ← getMemory sys selfUid
    let m := { m with items := alErase identifier m.items }
    Except.ok (putMemory sys m, true)
  else if return_false_if_error then Except.ok (sys, false)
  else Except.error (itemNotFoundRaise none)

/-- `BaseMemory.delete` (`base.py` lines 381-427).  With
`recursive=True` a link is forwarded to the resolved owner (the
recursion is bounded by `fuel`; exhaustion models Python recursing
forever on cyclic links); with `recursive=False` a link key is simply
revoked.  Otherwise the local-item deletion runs. -/
def memDelete (sys : Registry) (fuel : Nat) (selfUid identifier : String)
    (recursive return_false_if_error : Bool) (now : Nat) :
    Except PyErr (Registry × Bool) :=
  match fuel with
  | 0 => Except.error PyErr.fuelExhausted
  | fuel + 1 => do
    let m ← getMemory sys selfUid
    if recursive then
      match ← resolveLink sys m identifier with
      | some (tm, tid, _) => memDelete sys fuel tm.uid tid recursive return_false_if_error now
      | none => memDeleteLocal sys selfUid identifier return_false_if_error now
    else
      if alMem identifier m.links then do
        let sys ← revokeLink sys selfUid identifier
        Except.ok (sys, true)
      else memDeleteLocal sys selfUid identifier return_false_if_error now

/-- What `BaseMemory.read` hands back to the caller: Python `None`,
the state sentinel, the raw content, or the whole item. -/
inductive ReadOut
  | nothing
  | state (s : MemoryItemState)
  | content (c : Content)
  | meta (it : MemoryItem)
deriving DecidableEq

/-- Lift an item-level read result to the container-level result. -/
def itemResultToOut : MemoryItem.ReadResult → ReadOut
  | MemoryItem.ReadResult.state s => ReadOut.state s
  | MemoryItem.ReadResult.content c => ReadOut.content c
  | MemoryItem.ReadResult.meta it => ReadOut.meta it

/-- The non-link part of `BaseMemory.read` (`base.py` lines 475-489):
a locally owned item is gated by `is_accessible` (returning the miss
sentinel or the state per flag, with no mutation), then `MemoryItem.read`
runs and the mutated item is stored back; an unknown identifier
returns the miss sentinel or raises `iGymMemoryItemNotFound(item_uid,
mem_uid)` — constructor without `memory` → `NotImplementedError`. -/
def memReadLocal (sys : Registry) (m : BaseMemory) (identifier : String)
    (reader : Option String) (return_meta return_none_if_error : Bool)
    (accessed_via : Option (String × String)) (now : Nat) :
    Except PyErr (ReadOut × Registry) :=
  match alFind identifier m.items with
  | some item =>
    if !(item.is_accessible now) then
      if return_none_if_error then Except.ok (ReadOut.nothing, sys)
      else Except.ok (ReadOut.state item.state, sys)
    else
      let ri := item.read now return_meta reader accessed_via
      Except.ok (itemResultToOut ri.1,
        putMemory sys { m with items := alInsert identifier ri.2 m.items })
  | none =>
    if return_none_if_error then Except.ok (ReadOut.nothing, sys)
    else Except.error (itemNotFoundRaise none)

/-- `BaseMemory.read` (`base.py` lines 429-489).  A link key delegates
to the target container.  Two source facts shape this function:

* the recursive call passes only `identifier`, `reader`,
  `accessed_via` and `**kwargs` — so the inner frame sees the DEFAULT
  `return_meta=False`, `return_none_if_error=True`, and the original
  flags are dropped after one hop;
* `accessed_via` itself travels in `**kwargs`, so if the current frame
  already received one (i.e. this is the second hop) the call
  `target.read(..., accessed_via=new, **kwargs)` supplies the keyword
  twice and raises `TypeError` before the target frame runs.  Reading
  through two or more chained links therefore always raises.

The second hop is inlined below: its link branch resolves (registry
lookup first, as in `_resolve_link`) and then unconditionally raises
the duplicate-keyword `TypeError`. -/
def memRead (sys : Registry) (selfUid identifier : String)
    (reader : Option String) (return_meta return_none_if_error : Bool)
    (accessed_via : Option (String × String)) (now : Nat) :
    Except PyErr (ReadOut × Registry) := do
  let m ← getMemory sys selfUid
  match alFind identifier m.links with
  | some (tmu, tid) =>
    match alFind tmu sys with
    | none => Except.error PyErr.memoryNotFound
    | some tm =>
      if accessed_via.isSome then Except.error PyErr.typeErrorDuplicateKw
      else
        -- inner frame: defaults restored, kwargs = {accessed_via: (self.uid, identifier)}
        match alFind tid tm.links with
        | some (tmu2, _) =>
          match alFind tmu2 sys with
          | none => Except.error PyErr.memoryNotFound
          | some _ => Except.error PyErr.typeErrorDuplicateKw
        | none => memReadLocal sys tm tid reader false true (some (m.uid, identifier)) now
  | none => memReadLocal sys m identifier reader return_meta return_none_if_error accessed_via now

/-- What `BaseMemory.modify` hands back: a boolean or the state sentinel. -/
inductive ModOut
  | ok (b : Bool)
  | state (s : MemoryItemState)
deriving DecidableEq

/-- `BaseMemory.modify` (`base.py` lines 491-534).  `recursive=True`
forwards a link to the resolved owner with `modifier := self.uid`
(fuel-bounded recursion); a link key without `recursive` returns
`False`; a local item is gated by `is_accessible` and then mutated via
`MemoryItem.modify`. -/
def memModify (sys : Registry) (fuel : Nat) (selfUid identifier : String)
    (new_content : Content) (recursive : Bool) (modifier : Option String)
    (return_false_if_error : Bool) (now : Nat) :
    Except PyErr (ModOut × Registry) :=
  match fuel with
  | 0 => Except.error PyErr.fuelExhausted
  | fuel + 1 => do
    let m ← getMemory sys selfUid
    let modifier := some (modifier.getD m.uid)
    let step : Except PyErr (Option (ModOut × Registry)) :=
      if recursive then do
        match ← resolveLink sys m identifier with
        | some (tm, tid, _) => do
          let r ← memModify sys fuel tm.uid tid new_content recursive (some m.uid)
            return_false_if_error now
          Except.ok (some r)
        | none => Except.ok none
      else Except.ok none
    match ← step with
    | some r => Except.ok r
    | none =>
      if alMem identifier m.links then Except.ok (ModOut.ok false, sys)
      else
        match alFind identifier m.items with
        | some item =>
          if !(item.is_accessible now) then
            if return_false_if_error then Except.ok (ModOut.ok false, sys)
            else Except.ok (ModOut.state item.state, sys)
          else do
            let r ← item.modify now new_content modifier none none
            Except.ok (ModOut.ok true,
              putMemory sys { m with items := alInsert identifier r.2 m.items })
        | none =>
          if return_false_if_error then Except.ok (ModOut.ok false, sys)
          else Except.error (itemNotFoundRaise none)

/-- The snapshot produced by `BaseMemory.save` (`base.py` lines
556-563): `{"uid", "items" (each item serialized field-for-field by
pydantic `dict()`), "links", "type"}`. -/
structure SaveData where
  uid : String
  items : List (String × MemoryItem)
  links : List (String × (String × String))
  type : String
deriving DecidableEq

/-- `BaseMemory.save` (`base.py` lines 556-563). -/
def memSave (m : BaseMemory) (typeTag : String) : SaveData :=
  { uid := m.uid, items := m.items, links := m.links, type := typeTag }

/-- `BaseMemory.load` (`base.py` lines 565-574): construct (and
register) a fresh container with the saved uid, reconstruct every item
with `item_class(**item_data)` — which re-runs pydantic
`model_post_init`, i.e. `mkMemoryItem` — restore the forward link
table, and leave the reverse index empty. -/
def memLoad (sys : Registry) (data : SaveData) (now : Nat) :
    Except PyErr (Registry × BaseMemory) := do
  let sys ← newBaseMemory sys data.uid
  let items := data.items.map (fun kv => (kv.1, mkMemoryItem kv.2 now))
  let m : BaseMemory := { uid := data.uid, items := items, links := data.links }
  Except.ok (putMemory sys m, m)

/-! ## `TreeMemory` (`tree_memory.py`)

Tree containers live in their own registry here
(`TRegistry`), i.e. the global registry restricted to tree
containers; the claims about trees never mix container types.
Python mutates `TreeMemoryItem` objects shared between
`items`, parent/child pointers and local variables; the embedding
performs every such mutation on the `items` map, which is sound
because at every call site below the mutated objects are stored in
`self.items` (they are fetched from it or were just added to it). -/

/-- Remove the first occurrence (Python `list.remove`, guarded by a
membership test at every call site below). -/
def removeFirst {α : Type} [DecidableEq α] : List α → α → List α
  | [], _ => []
  | y :: ys, x => if y = x then ys else y :: removeFirst ys x

/-- `TreeMemoryItem` (`tree_memory.py` lines 14-17): a `MemoryItem`
plus cached depth, optional parent uid and ordered child uids. -/
structure TreeMemoryItem where
  item : MemoryItem
  depth : Nat := 0
  parent_uid : Option String := none
  children_uids : List String := []
deriving DecidableEq

abbrev TItems := List (String × TreeMemoryItem)

/-- `TreeMemoryItem.remove_child` by uid (`tree_memory.py` lines
19-25): remove the uid from the child list if present. -/
def TreeMemoryItem.remove_child (it : TreeMemoryItem) (child_uid : String) : TreeMemoryItem :=
  if child_uid ∈ it.children_uids then
    { it with children_uids := removeFirst it.children_uids child_uid }
  else it

/-- The body of `TreeMemoryItem.add_child` with its default
`recursive_depth=False` (`tree_memory.py` lines 27-38): set the
child's parent pointer, set `child.depth = self.depth + 1`, and append
the child uid to `self.children_uids` unless already present.  Both
objects are entries of `items` at every call site. -/
def addChildBase (items : TItems) (parentUid childUid : String) : TItems :=
  match alFind parentUid items, alFind childUid items with
  | some p, some c =>
    let c := { c with parent_uid := some parentUid, depth := p.depth + 1 }
    let items := alInsert childUid c items
    let p := if childUid ∈ p.children_uids then p
      else { p with children_uids := p.children_uids ++ [childUid] }
    alInsert parentUid p items
  | _, _ => items

/-- `TreeMemoryItem.add_child` with `recursive_depth=True`
(`tree_memory.py` lines 27-38).  After the base mutations, the loop
`for child_child_uid in child.children_uids` fetches each grandchild
by raw dict access (`all_items[child_child_uid]`, a `KeyError` when
dangling) and calls `child.add_child(child_child)` — with
`recursive_depth` left at its default `False`, so the depth refresh
stops at the grandchildren and never reaches deeper descendants. -/
def addChild (items : TItems) (parentUid childUid : String) : Except PyErr TItems := do
  let items := addChildBase items parentUid childUid
  match alFind childUid items with
  | some c =>
    c.children_uids.foldlM (fun its gcUid =>
      if alMem gcUid its then Except.ok (addChildBase its childUid gcUid)
      else Except.error PyErr.keyError) items
  | none => Except.ok items

/-- `TreeMemoryItem.become_root` (`tree_memory.py` lines 40-48): clear
the parent pointer, reset the cached depth to `0`, and with
`recursive_depth=True` re-run `add_child(child, recursive_depth=True)`
on every direct child (each fetched by raw dict access). -/
def becomeRoot (items : TItems) (selfUid : String) (recursive_depth : Bool) :
    Except PyErr TItems := do
  match alFind selfUid items with
  | none => Except.ok items
  | some it =>
    let it := { it with parent_uid := none, depth := 0 }
    let items := alInsert selfUid it items
    if recursive_depth then
      it.children_uids.foldlM (fun its cUid =>
        if alMem cUid its then addChild its selfUid cUid
        else Except.error PyErr.keyError) items
    else Except.ok items

/-- `TreeMemory` (`tree_memory.py` lines 58-64): a `BaseMemory` whose
items are tree items, plus the ordered set of root uids. -/
structure TreeMemory where
  uid : String
  items : TItems := []
  links : List (String × (String × String)) := []
  reverse_links : List (String × List (String × String)) := []
  root_uids : List String := []
deriving DecidableEq

/-- The global registry restricted to tree containers. -/
abbrev TRegistry := List (String × TreeMemory)

/-- `MemorySystem.get_memory` over tree containers. -/
def getTreeMemory (tsys : TRegistry) (uid : String) : Except PyErr TreeMemory :=
  match alFind uid tsys with
  | some t => Except.ok t
  | none => Except.error PyErr.memoryNotFound

/-- Store a (mutated) tree container back under its uid. -/
def putTreeMemory (tsys : TRegistry) (t : TreeMemory) : TRegistry :=
  alInsert t.uid t tsys

/-- `TreeMemory.__init__` (`tree_memory.py` lines 61-64): the
inherited constructor registers the fresh container, then the root
list starts empty. -/
def newTreeMemory (tsys : TRegistry) (uid : String) : Except PyErr TRegistry :=
  if alMem uid tsys then Except.error PyErr.duplicateMemUID
  else Except.ok (alInsert uid { uid := uid } tsys)

/-- `TreeMemory.add` (`tree_memory.py` lines 67-97).  The incoming
tree item's parent pointer is overwritten with the `parent_uid`
argument; the inherited `BaseMemory.add` stores it (duplicate-uid
check against `items`, `WRITING`→`NORMAL`, history entry `"added"`).
Without a parent the item becomes a root: depth reset to `0`, uid
appended to `root_uids`, and any pre-existing children re-attached
with `add_child(child, recursive_depth=True)` (each child fetched by
raw dict access).  With a parent, the parent must exist — else
`iGymMemoryItemNotFound(..., memory=self)` is raised, and because
`self` is a `TreeMemory` the exception constructor actually produces
the `iGymMemoryItemNotFound` — and `parent.add_child(item,
recursive_depth=True)` runs. -/
def treeAdd (tsys : TRegistry) (selfUid : String) (tree_item : TreeMemoryItem)
    (parent_uid : Option String) (now : Nat) : Except PyErr (TRegistry × String) := do
  let t ← getTreeMemory tsys selfUid
  let tree_item := { tree_item with parent_uid := parent_uid }
  if alMem tree_item.item.uid t.items then Except.error PyErr.itemDuplicateUID
  else
    let base := tree_item.item
    let base := { base with state := MemoryItemState.WRITING }
    let base := { base with state := MemoryItemState.NORMAL }
    let base := base.update_history now "added" none none none none
    let tree_item := { tree_item with item := base }
    let uid := base.uid
    let items := alInsert uid tree_item t.items
    match parent_uid with
    | none =>
      let items := alInsert uid { tree_item with depth := 0 } items
      let roots := t.root_uids ++ [uid]
      let items ← tree_item.children_uids.foldlM (fun its cUid =>
        if alMem cUid its then addChild its uid cUid
        else Except.error PyErr.keyError) items
      Except.ok (putTreeMemory tsys { t with items := items, root_uids := roots }, uid)
    | some p =>
      if !alMem p items then Except.error (itemNotFoundRaise (some MemKind.tree))
      else do
        let items ← addChild items p uid
        Except.ok (putTreeMemory tsys { t with items := items }, uid)

/-- An element of a traversal result: the node's content, or with
`return_meta=True` the whole tree item. -/
inductive TravElem
  | content (c : Content)
  | meta (it : TreeMemoryItem)
deriving DecidableEq

/-- One visitor invocation `func(current=..., parent=...)`: the
current item and its parent item (`None` for a root) at call time. -/
abbrev VisitCall := TreeMemoryItem × Option TreeMemoryItem

/-- The parent lookup `None if current.parent_uid is None else
self.items[current.parent_uid]` — a raw dict access, `KeyError` on a
dangling parent pointer. -/
def lookupParent (items : TItems) (p? : Option String) :
    Except PyErr (Option TreeMemoryItem) :=
  match p? with
  | none => Except.ok none
  | some p =>
    match alFind p items with
    | some x => Except.ok (some x)
    | none => Except.error PyErr.keyError

/-- The node appended to `results`: `current.content if not
return_meta else current`. -/
def travOut (return_meta : Bool) (current : TreeMemoryItem) : TravElem :=
  if return_meta then TravElem.meta current else TravElem.content current.item.content

/-- The inner `recursive_traverse` of `TreeMemory.traverse`
(`tree_memory.py` lines 113-129), accumulating the shared `results`
list and the sequence of visitor invocations.  An unknown uid returns
silently; pre-order appends the node before its children, post-order
after; children are visited left-to-right in child-list order.  `fuel`
bounds the recursion depth (exhaustion models Python recursing forever
on a cyclic structure). -/
def recTraverse (items : TItems) (return_meta : Bool) (order : String) :
    Nat → String → List TravElem × List VisitCall →
    Except PyErr (List TravElem × List VisitCall)
  | 0, _, _ => Except.error PyErr.fuelExhausted
  | fuel + 1, currentUid, acc =>
    match alFind currentUid items with
    | none => Except.ok acc
    | some current => do
      let parent ← lookupParent items current.parent_uid
      let vis := acc.2 ++ [(current, parent)]
      let res := if order = "pre" then acc.1 ++ [travOut return_meta current] else acc.1
      let r ← current.children_uids.foldlM
        (fun a cUid => recTraverse items return_meta order fuel cUid a) (res, vis)
      let res := if order = "post" then r.1 ++ [travOut return_meta current] else r.1
      Except.ok (res, r.2)

/-- One level of the inner `layer_traverse` (`tree_memory.py` lines
141-152): pop every uid of the current level (raw dict access,
`KeyError` on a dangling uid), record its output and visitor call, and
collect the next level's queue from the child lists. -/
def layerLevel (items : TItems) (return_meta : Bool) :
    List String → Except PyErr (List TravElem × List VisitCall × List String)
  | [] => Except.ok ([], [], [])
  | uid :: rest =>
    match alFind uid items with
    | none => Except.error PyErr.keyError
    | some current => do
      let parent ← lookupParent items current.parent_uid
      let r ← layerLevel items return_meta rest
      Except.ok (travOut return_meta current :: r.1,
        (current, parent) :: r.2.1, current.children_uids ++ r.2.2)

/-- The `while queue` loop of `layer_traverse` (`tree_memory.py` lines
139-152): each iteration turns the whole queue into one result level.
`fuel` bounds the number of levels. -/
def layerTraverse (items : TItems) (return_meta : Bool) :
    Nat → List String → Except PyErr (List (List TravElem) × List VisitCall)
  | 0, queue => if queue.isEmpty then Except.ok ([], []) else Except.error PyErr.fuelExhausted
  | _, [] => Except.ok ([], [])
  | fuel + 1, queue => do
    let lvl ← layerLevel items return_meta queue
    let rest ← layerTraverse items return_meta fuel lvl.2.2
    Except.ok (lvl.1 :: rest.1, lvl.2.1 ++ rest.2)

/-- A traversal result: a flat sequence for pre/post order, one
sub-sequence per depth level for layer order. -/
inductive TravResult
  | flat (xs : List TravElem)
  | layers (xs : List (List TravElem))
deriving DecidableEq

/-- `TreeMemory.traverse` (`tree_memory.py` lines 99-158).  The order
string is lower-cased and asserted to be one of `pre`, `post`,
`layer`; `layer` runs the queue-based level traversal (silently empty
for an unknown start uid), the other two the recursive traversal.
Alongside the results it returns the sequence of visitor invocations
`(current, parent)` that a supplied `func` would receive, in call
order. -/
def treeTraverse (t : TreeMemory) (uid : String) (order : String)
    (return_meta : Bool) (fuel : Nat) : Except PyErr (TravResult × List VisitCall) :=
  if order = "layer" then
    if !alMem uid t.items then Except.ok (TravResult.layers [], [])
    else do
      let r ← layerTraverse t.items return_meta fuel [uid]
      Except.ok (TravResult.layers r.1, r.2)
  else if order = "pre" ∨ order = "post" then do
    let r ← recTraverse t.items return_meta order fuel uid ([], [])
    Except.ok (TravResult.flat r.1, r.2)
  else Except.error PyErr.assertionError

/-- The cascading-invalidation loop of the inherited
`BaseMemory.delete`, over tree containers. -/
def treeStripLinksTo (selfUid identifier : String) :
    TRegistry → List String → Except PyErr TRegistry
  | tsys, [] => Except.ok tsys
  | tsys, memUid :: rest => do
    let mem ← getTreeMemory tsys memUid
    let mem := { mem with links := mem.links.filter (fun kv => kv.2 ≠ (selfUid, identifier)) }
    treeStripLinksTo selfUid identifier (putTreeMemory tsys mem) rest

/-- `BaseMemory.revoke_link` inherited by tree containers. -/
def treeRevokeLink (tsys : TRegistry) (selfUid identifier : String) :
    Except PyErr TRegistry := do
  let t ← getTreeMemory tsys selfUid
  match alFind identifier t.links with
  | none => Except.ok tsys
  | some (tmu, _) =>
    let t := { t with links := alErase identifier t.links }
    if tmu = t.uid then
      let rl := ((alFind selfUid t.reverse_links).getD []).filter (fun p => p.1 ≠ identifier)
      Except.ok (putTreeMemory tsys { t with reverse_links := alInsert selfUid rl t.reverse_links })
    else do
      let tsys := putTreeMemory tsys t
      let tm ← getTreeMemory tsys tmu
      let rl := ((alFind selfUid tm.reverse_links).getD []).filter (fun p => p.1 ≠ identifier)
      Except.ok (putTreeMemory tsys { tm with reverse_links := alInsert selfUid rl tm.reverse_links })

/-- The `super().delete(identifier, return_false_if_error=...)` call
made by `TreeMemory.delete`: the body of `BaseMemory.delete`
(`base.py` lines 381-427) with its default `recursive=False`, over
tree containers.  A link key is revoked; an owned item has every
remote forward entry equal to `(self.uid, identifier)` stripped (per
the reverse index) before removal; the removed item object is set
`EXPIRED` with a `"deleted"` history entry as it leaves `items`.  The
miss path raises `iGymMemoryItemNotFound(item_uid, mem_uid)` without a
`memory` argument — i.e. `NotImplementedError`. -/
def treeSuperDelete (tsys : TRegistry) (selfUid identifier : String)
    (return_false_if_error : Bool) (now : Nat) : Except PyErr (TRegistry × Bool) := do
  let t ← getTreeMemory tsys selfUid
  if alMem identifier t.links then do
    let tsys ← treeRevokeLink tsys selfUid identifier
    Except.ok (tsys, true)
  else if alMem identifier t.items then do
    let tsys ← treeStripLinksTo selfUid identifier tsys (t.reverse_links.map Prod.fst)
    let t ← getTreeMemory tsys selfUid
    let t := { t with items := alErase identifier t.items }
    Except.ok (putTreeMemory tsys t, true)
  else if return_false_if_error then Except.ok (tsys, false)
  else Except.error (itemNotFoundRaise none)

/-- `TreeMemory.delete` (`tree_memory.py` lines 160-215).  Note the
default `return_false_if_error=False` (unlike the base class).  An
unknown identifier returns `False` or raises the (constructible,
`memory=self` tree-branch) `iGymMemoryItemNotFound`.

`with_children=True`: delete every child subtree first, accumulating
success; only if all succeeded run the inherited delete on the node
itself, and only if that succeeded unhook it from its parent's child
list — or from `root_uids`, by an unguarded `list.remove` that raises
`ValueError` when absent.

`with_children=False` (lift): run the inherited delete first; on
success unhook the node, then re-parent each direct child onto the
deleted node's parent with `add_child(child, recursive_depth=True)`,
or — when the deleted node was a root — append the child to
`root_uids` and `become_root(recursive_depth=True)` it.  `fuel` bounds
the `with_children` recursion. -/
def treeDelete (tsys : TRegistry) (fuel : Nat) (selfUid identifier : String)
    (with_children return_false_if_error : Bool) (now : Nat) :
    Except PyErr (TRegistry × Bool) :=
  match fuel with
  | 0 => Except.error PyErr.fuelExhausted
  | fuel + 1 => do
    let t ← getTreeMemory tsys selfUid
    match alFind identifier t.items with
    | none =>
      if return_false_if_error then Except.ok (tsys, false)
      else Except.error (itemNotFoundRaise (some MemKind.tree))
    | some item => do
      -- parent = None if item.parent_uid is None else self.items[item.parent_uid]
      let parent? ← lookupParent t.items item.parent_uid
      if with_children then do
        let r ← item.children_uids.foldlM
          (fun (acc : TRegistry × Bool) cUid => do
            let r ← treeDelete acc.1 fuel selfUid cUid true return_false_if_error now
            Except.ok (r.1, r.2 && acc.2))
          (tsys, true)
        let tsys := r.1
        let pre_state := r.2
        if pre_state then do
          let r2 ← treeSuperDelete tsys selfUid identifier return_false_if_error now
          let tsys := r2.1
          if r2.2 then do
            let t ← getTreeMemory tsys selfUid
            match parent? with
            | some p =>
              -- `parent` is the live object: re-read it from the map
              let pLive := (alFind p.item.uid t.items).getD p
              let t := { t with
                items := alInsert p.item.uid (pLive.remove_child item.item.uid) t.items }
              Except.ok (putTreeMemory tsys t, true)
            | none =>
              -- unguarded self.root_uids.remove(identifier)
              if identifier ∈ t.root_uids then
                Except.ok (putTreeMemory tsys
                  { t with root_uids := removeFirst t.root_uids identifier }, true)
              else Except.error PyErr.valueError
          else Except.ok (tsys, false)
        else Except.ok (tsys, false)
      else do
        let child_uids := item.children_uids
        let r2 ← treeSuperDelete tsys selfUid identifier return_false_if_error now
        let tsys := r2.1
        if !r2.2 then Except.ok (tsys, r2.2)
        else do
          let t ← getTreeMemory tsys selfUid
          let t ←
            match parent? with
            | some p =>
              let pLive := (alFind p.item.uid t.items).getD p
              Except.ok { t with
                items := alInsert p.item.uid (pLive.remove_child identifier) t.items }
            | none =>
              if identifier ∈ t.root_uids then
                Except.ok { t with root_uids := removeFirst t.root_uids identifier }
              else Except.ok t
          let t ← child_uids.foldlM
            (fun (t : TreeMemory) cUid =>
              if !alMem cUid t.items then Except.error PyErr.keyError
              else
                match parent? with
                | some p => do
                  let items ← addChild t.items p.item.uid cUid
                  Except.ok { t with items := items }
                | none => do
                  let t := { t with root_uids := t.root_uids ++ [cUid] }
                  let items ← becomeRoot t.items cUid true
                  Except.ok { t with items := items })
            t
          Except.ok (putTreeMemory tsys t, true)

/-- The snapshot of `TreeMemory.save` (`tree_memory.py` lines
217-221): the base snapshot plus `root_uids`; each item serializes
with its tree fields. -/
structure TreeSaveData where
  uid : String
  items : TItems
  links : List (String × (String × String))
  type : String
  root_uids : List String
deriving DecidableEq

/-- `TreeMemory.save`. -/
def treeSave (t : TreeMemory) : TreeSaveData :=
  { uid := t.uid, items := t.items, links := t.links, type := "TreeMemory",
    root_uids := t.root_uids }

/-- Reconstructing a `TreeMemoryItem` with
`TreeMemoryItem(**item_data)` re-runs the inherited
`model_post_init`. -/
def mkTreeMemoryItem (it : TreeMemoryItem) (now : Nat) : TreeMemoryItem :=
  { it with item := mkMemoryItem it.item now }

/-- `TreeMemory.load` (`tree_memory.py` lines 223-228): the inherited
`BaseMemory.load` with `item_class=TreeMemoryItem` (constructing and
registering a fresh tree container), then `root_uids` restored; the
reverse index stays empty. -/
def treeLoad (tsys : TRegistry) (data : TreeSaveData) (now : Nat) :
    Except PyErr (TRegistry × TreeMemory) := do
  if alMem data.uid tsys then Except.error PyErr.duplicateMemUID
  else
    let items := data.items.map (fun kv => (kv.1, mkTreeMemoryItem kv.2 now))
    let t : TreeMemory :=
      { uid := data.uid
        items := items
        links := data.links
        root_uids := data.root_uids }
    Except.ok (alInsert data.uid t tsys, t)

/-! ## `ListMemory` (`list_memory.py`)

Ordered containers live in their own registry (`LRegistry`), i.e. the
global registry restricted to list containers.  `item_list` entries
are uids, but `ListMemory.request_link` appends the return value of
the inherited `request_link` — which is always `None` — so the list
can genuinely contain `None`; its element type is therefore
`Option String`. -/

/-- `ListMemory` (`list_memory.py` lines 6-11): a `BaseMemory` plus
the explicit order list. -/
structure ListMemory where
  uid : String
  items : List (String × MemoryItem) := []
  links : List (String × (String × String)) := []
  reverse_links : List (String × List (String × String)) := []
  item_list : List (Option String) := []
deriving DecidableEq

/-- The global registry restricted to list containers. -/
abbrev LRegistry := List (String × ListMemory)

/-- `MemorySystem.get_memory` over list containers. -/
def getListMemory (lsys : LRegistry) (uid : String) : Except PyErr ListMemory :=
  match alFind uid lsys with
  | some lm => Except.ok lm
  | none => Except.error PyErr.memoryNotFound

/-- Store a (mutated) list container back under its uid. -/
def putListMemory (lsys : LRegistry) (lm : ListMemory) : LRegistry :=
  alInsert lm.uid lm lsys

/-- `ListMemory.__init__` (`list_memory.py` lines 8-11): the inherited
constructor registers the fresh container, then the order list starts
empty. -/
def newListMemory (lsys : LRegistry) (uid : String) : Except PyErr LRegistry :=
  if alMem uid lsys then Except.error PyErr.duplicateMemUID
  else Except.ok (alInsert uid { uid := uid } lsys)

/-- Python `list.insert(i, v)` (clamps an index past the end). -/
def insertAt (xs : List (Option String)) (i : Nat) (v : Option String) :
    List (Option String) :=
  xs.take i ++ [v] ++ xs.drop i

/-- `ListMemory.add` (`list_memory.py` lines 23-30): the inherited
`BaseMemory.add`, then the uid appended to `item_list` (or inserted at
the requested position). -/
def listAdd (lsys : LRegistry) (selfUid : String) (item : MemoryItem)
    (index : Option Nat) (now : Nat) : Except PyErr (LRegistry × String) := do
  let lm ← getListMemory lsys selfUid
  if alMem item.uid lm.items then Except.error PyErr.itemDuplicateUID
  else
    let item := { item with state := MemoryItemState.WRITING }
    let item := { item with state := MemoryItemState.NORMAL }
    let item := item.update_history now "added" none none none none
    let lm := { lm with items := alInsert item.uid item lm.items }
    let lm :=
      match index with
      | none => { lm with item_list := lm.item_list ++ [some item.uid] }
      | some i => { lm with item_list := insertAt lm.item_list i (some item.uid) }
    Except.ok (putListMemory lsys lm, item.uid)

/-- The `request_link` resolution loop over list containers. -/
def listResolveOwnerLoop (lsys : LRegistry) :
    Nat → ListMemory → String → Except PyErr (ListMemory × String)
  | 0, _, _ => Except.error PyErr.fuelExhausted
  | fuel + 1, tm, tid =>
    if alMem tid tm.items then Except.ok (tm, tid)
    else
      match alFind tid tm.links with
      | some (tmu2, tid2) =>
        match alFind tmu2 lsys with
        | some tm2 => listResolveOwnerLoop lsys fuel tm2 tid2
        | none => Except.error PyErr.memoryNotFound
      | none => Except.error (itemNotFoundRaise none)

/-- The inherited `BaseMemory.request_link` running on a list
container (`base.py` lines 318-359); identical to `requestLink`,
including its `None` return value on every path. -/
def listSuperRequestLink (lsys : LRegistry) (selfUid targetMemUid targetItemUid : String)
    (sourceItemUid : Option String) (fuel : Nat) :
    Except PyErr (LRegistry × Option String) := do
  let lm ← getListMemory lsys selfUid
  if targetMemUid = lm.uid then Except.ok (lsys, none)
  else
    let src := sourceItemUid.getD targetItemUid
    if alMem src lm.items then Except.error PyErr.itemDuplicateUID
    else do
      let tm0 ← getListMemory lsys targetMemUid
      let ow ← listResolveOwnerLoop lsys fuel tm0 targetItemUid
      let owner := ow.1
      let resolvedUid := ow.2
      let lm := { lm with links := alInsert src (targetMemUid, resolvedUid) lm.links }
      if owner.uid = lm.uid then
        let rl := (alFind lm.uid lm.reverse_links).getD []
        let lm := { lm with reverse_links := alInsert lm.uid (rl ++ [(src, resolvedUid)]) lm.reverse_links }
        Except.ok (putListMemory lsys lm, none)
      else
        let rl := (alFind lm.uid owner.reverse_links).getD []
        let owner := { owner with
          reverse_links := alInsert lm.uid (rl ++ [(src, resolvedUid)]) owner.reverse_links }
        Except.ok (putListMemory (putListMemory lsys lm) owner, none)

/-- `ListMemory.request_link` (`list_memory.py` lines 32-45): run the
inherited `request_link`, then append its return value — always
`None` — to `item_list` (or insert it at the requested index) and
return the numeric index. -/
def listRequestLink (lsys : LRegistry) (selfUid targetMemUid targetItemUid : String)
    (sourceItemUid : Option String) (index : Option Nat) (fuel : Nat) :
    Except PyErr (LRegistry × Nat) := do
  let r ← listSuperRequestLink lsys selfUid targetMemUid targetItemUid sourceItemUid fuel
  let lsys := r.1
  let uid : Option String := r.2
  let lm ← getListMemory lsys selfUid
  match index with
  | none =>
    let idx := lm.item_list.length
    let lm := { lm with item_list := lm.item_list ++ [uid] }
    Except.ok (putListMemory lsys lm, idx)
  | some i =>
    let lm := { lm with item_list := insertAt lm.item_list i uid }
    Except.ok (putListMemory lsys lm, i)

/-- The inherited `BaseMemory.revoke_link` running on a list
container. -/
def listSuperRevokeLink (lsys : LRegistry) (selfUid identifier : String) :
    Except PyErr LRegistry := do
  let lm ← getListMemory lsys selfUid
  match alFind identifier lm.links with
  | none => Except.ok lsys
  | some (tmu, _) =>
    let lm := { lm with links := alErase identifier lm.links }
    if tmu = lm.uid then
      let rl := ((alFind selfUid lm.reverse_links).getD []).filter (fun p => p.1 ≠ identifier)
      Except.ok (putListMemory lsys { lm with reverse_links := alInsert selfUid rl lm.reverse_links })
    else do
      let lsys := putListMemory lsys lm
      let tm ← getListMemory lsys tmu
      let rl := ((alFind selfUid tm.reverse_links).getD []).filter (fun p => p.1 ≠ identifier)
      Except.ok (putListMemory lsys { tm with reverse_links := alInsert selfUid rl tm.reverse_links })

/-- `ListMemory.revoke_link` (`list_memory.py` lines 47-50): only acts
when the identifier appears in `item_list`; then the inherited revoke
plus removal from the order list. -/
def listRevokeLink (lsys : LRegistry) (selfUid identifier : String) :
    Except PyErr LRegistry := do
  let lm ← getListMemory lsys selfUid
  if (some identifier) ∈ lm.item_list then do
    let lsys ← listSuperRevokeLink lsys selfUid identifier
    let lm ← getListMemory lsys selfUid
    Except.ok (putListMemory lsys
      { lm with item_list := removeFirst lm.item_list (some identifier) })
  else Except.ok lsys

/-- The cascading-invalidation loop of the inherited
`BaseMemory.delete`, over list containers. -/
def listStripLinksTo (selfUid identifier : String) :
    LRegistry → List String → Except PyErr LRegistry
  | lsys, [] => Except.ok lsys
  | lsys, memUid :: rest => do
    let mem ← getListMemory lsys memUid
    let mem := { mem with links := mem.links.filter (fun kv => kv.2 ≠ (selfUid, identifier)) }
    listStripLinksTo selfUid identifier (putListMemory lsys mem) rest

/-- The `super().delete(...)` call of `ListMemory.delete`: the body of
`BaseMemory.delete` (`base.py` lines 381-427) running on a list
container.  `identifier` is `Option String` because `item_list`
entries can be `None`; `None` matches no key.  Dynamic dispatch
matters twice: the link-revocation path calls `self.revoke_link`,
which is `ListMemory.revoke_link`; and the `recursive=True` path
forwards to `target_memory.delete(target_item_uid, ...)` — a string
identifier handed to `ListMemory.delete`, whose string branch
evaluates `identifier in index` with the local `index` still unbound,
so the forwarded call always raises `UnboundLocalError`. -/
def listSuperDelete (lsys : LRegistry) (selfUid : String) (identifier : Option String)
    (recursive return_false_if_error : Bool) (now : Nat) :
    Except PyErr (LRegistry × Bool) := do
  let lm ← getListMemory lsys selfUid
  let isLink := match identifier with
    | some s => alMem s lm.links
    | none => false
  if recursive then
    match identifier with
    | some s =>
      match alFind s lm.links with
      | some (tmu, _) =>
        match alFind tmu lsys with
        | some _ => Except.error PyErr.unboundLocalIndex
        | none => Except.error PyErr.memoryNotFound
      | none => listSuperDeleteLocal lsys selfUid identifier return_false_if_error now
    | none => listSuperDeleteLocal lsys selfUid identifier return_false_if_error now
  else
    if isLink then do
      match identifier with
      | some s => do
        let lsys ← listRevokeLink lsys selfUid s
        Except.ok (lsys, true)
      | none => Except.ok (lsys, true)
    else listSuperDeleteLocal lsys selfUid identifier return_false_if_error now
where
  /-- The local-item part of the inherited delete. -/
  listSuperDeleteLocal (lsys : LRegistry) (selfUid : String) (identifier : Option String)
      (return_false_if_error : Bool) (now : Nat) : Except PyErr (LRegistry × Bool) := do
    let lm ← getListMemory lsys selfUid
    match identifier with
    | some s =>
      if alMem s lm.items then do
        let lsys ← listStripLinksTo selfUid s lsys (lm.reverse_links.map Prod.fst)
        let lm ← getListMemory lsys selfUid
        let lm := { lm with items := alErase s lm.items }
        Except.ok (putListMemory lsys lm, true)
      else if return_false_if_error then Except.ok (lsys, false)
      else Except.error (itemNotFoundRaise none)
    | none =>
      if return_false_if_error then Except.ok (lsys, false)
      else Except.error (itemNotFoundRaise none)

/-- A `ListMemory.delete` identifier: Python `Union[str, int]`. -/
inductive ListIdent
  | int (i : Int)
  | str (s : String)
deriving DecidableEq

/-- `ListMemory.delete` (`list_memory.py` lines 52-86).  An integer
identifier is bounds-checked (miss: `False` or
`iGymMemoryItemNotFound(..., memory=self)` — a `ListMemory`, so the
constructor raises `NotImplementedError`) and translated through
`item_list`.  A string identifier evaluates `if identifier in index:`
— but the local variable `index` has not been assigned on this branch,
so EVERY string identifier raises `UnboundLocalError` before anything
else happens.  On a successful inherited delete the entry is removed
from `item_list`. -/
def listDelete (lsys : LRegistry) (selfUid : String) (identifier : ListIdent)
    (recursive return_false_if_error : Bool) (now : Nat) :
    Except PyErr (LRegistry × Bool) := do
  let lm ← getListMemory lsys selfUid
  match identifier with
  | ListIdent.str _ => Except.error PyErr.unboundLocalIndex
  | ListIdent.int index =>
    if (lm.item_list.length : Int) ≤ index ∨ index < 0 then
      if return_false_if_error then Except.ok (lsys, false)
      else Except.error (itemNotFoundRaise (some MemKind.list))
    else do
      let ident : Option String := (lm.item_list.get? index.toNat).join
      let r ← listSuperDelete lsys selfUid ident recursive return_false_if_error now
      let lsys := r.1
      if r.2 then do
        let lm ← getListMemory lsys selfUid
        -- self.item_list.remove(identifier): ValueError when absent
        if ident ∈ lm.item_list then
          Except.ok (putListMemory lsys
            { lm with item_list := removeFirst lm.item_list ident }, true)
        else Except.error PyErr.valueError
      else Except.ok (lsys, false)

/-- The snapshot of `ListMemory.save` (`list_memory.py` lines
98-102): the base snapshot plus `item_list`. -/
structure ListSaveData where
  uid : String
  items : List (String × MemoryItem)
  links : List (String × (String × String))
  type : String
  item_list : List (Option String)
deriving DecidableEq

/-- `ListMemory.save`. -/
def listSave (lm : ListMemory) : ListSaveData :=
  { uid := lm.uid, items := lm.items, links := lm.links, type := "ListMemory",
    item_list := lm.item_list }

/-- `ListMemory.load` (`list_memory.py` lines 104-109): the inherited
`BaseMemory.load` (fresh registered container, items reconstructed
through `model_post_init`, links restored, reverse index empty), then
`item_list` restored. -/
def listLoad (lsys : LRegistry) (data : ListSaveData) (now : Nat) :
    Except PyErr (LRegistry × ListMemory) := do
  if alMem data.uid lsys then Except.error PyErr.duplicateMemUID
  else
    let items := data.items.map (fun kv => (kv.1, mkMemoryItem kv.2 now))
    let lm : ListMemory :=
      { uid := data.uid
        items := items
        links := data.links
        item_list := data.item_list }
    Except.ok (alInsert data.uid lm lsys, lm)

/-! ## Concrete scenario states (built by the public operations) -/

instance {ε α : Type} [DecidableEq ε] [DecidableEq α] : DecidableEq (Except ε α) :=
  fun a b =>
    match a, b with
    | Except.ok x, Except.ok y =>
      if h : x = y then Decidable.isTrue (by rw [h]) else Decidable.isFalse (by simp [h])
    | Except.error x, Except.error y =>
      if h : x = y then Decidable.isTrue (by rw [h]) else Decidable.isFalse (by simp [h])
    | Except.ok _, Except.error _ => Decidable.isFalse (fun h => Except.noConfusion h)
    | Except.error _, Except.ok _ => Decidable.isFalse (fun h => Except.noConfusion h)

/-- A fresh caller-constructed item with string content. -/
def itemOf (uid content : String) : MemoryItem :=
  mkMemoryItem { uid := uid, content := Content.str content, source := "test", timestamp := 0 } 0

/-- A fresh caller-constructed tree item with string content. -/
def treeItemOf (uid content : String) : TreeMemoryItem :=
  { item := itemOf uid content }

/-- Containers `A`, `B`, `C`; `C` owns item `x`; `B` links to `(C, x)`
under local key `x`; `A` then links to `(B, x)` — a two-hop chain with
default local keys, built entirely by public operations. -/
def chainState : Except PyErr Registry := do
  let sys ← newBaseMemory [] "A"
  let sys ← newBaseMemory sys "B"
  let sys ← newBaseMemory sys "C"
  let r ← memAdd sys "C" (itemOf "x" "shared") 1
  let r ← requestLink r.1 "B" "C" "x" none 5
  let r ← requestLink r.1 "A" "B" "x" none 5
  Except.ok r.1

/-- `chainState` after `C.delete("x")`. -/
def chainAfterDelete : Except PyErr Registry := do
  let sys ← chainState
  let r ← memDelete sys 3 "C" "x" false true 7
  Except.ok r.1

/-- Container `B` owning `x`; `A` calls
`request_link("B", "x", "k")` twice with the same local key.  The
duplicate check consults `self.items` only, so the second call goes
through and appends a second reverse pair. -/
def doubleRequestState : Except PyErr Registry := do
  let sys ← newBaseMemory [] "A"
  let sys ← newBaseMemory sys "B"
  let r ← memAdd sys "B" (itemOf "x" "shared") 1
  let r ← requestLink r.1 "A" "B" "x" (some "k") 5
  let r ← requestLink r.1 "A" "B" "x" (some "k") 5
  Except.ok r.1

/-- A five-node chain tree `R → A → B → C → D` in container `t`. -/
def deepTreeState : Except PyErr TRegistry := do
  let tsys ← newTreeMemory [] "t"
  let r ← treeAdd tsys "t" (treeItemOf "R" "R") none 1
  let r ← treeAdd r.1 "t" (treeItemOf "A" "A") (some "R") 2
  let r ← treeAdd r.1 "t" (treeItemOf "B" "B") (some "A") 3
  let r ← treeAdd r.1 "t" (treeItemOf "C" "C") (some "B") 4
  let r ← treeAdd r.1 "t" (treeItemOf "D" "D") (some "C") 5
  Except.ok r.1

/-- `deepTreeState` after the lift-delete of `A`. -/
def deepTreeDeleted : Except PyErr TRegistry := do
  let tsys ← deepTreeState
  let r ← treeDelete tsys 6 "t" "A" false false 6
  Except.ok r.1

/-- Root `R` with ordered children `[A, B]`, and `C` a child of `A`. -/
def liftTreeState : Except PyErr TRegistry := do
  let tsys ← newTreeMemory [] "t"
  let r ← treeAdd tsys "t" (treeItemOf "R" "R") none 1
  let r ← treeAdd r.1 "t" (treeItemOf "A" "A") (some "R") 2
  let r ← treeAdd r.1 "t" (treeItemOf "B" "B") (some "R") 3
  let r ← treeAdd r.1 "t" (treeItemOf "C" "C") (some "A") 4
  Except.ok r.1

/-- `liftTreeState` after `delete("A", with_children=False)`. -/
def liftTreeDeleted : Except PyErr TRegistry := do
  let tsys ← liftTreeState
  let r ← treeDelete tsys 5 "t" "A" false false 5
  Except.ok r.1

/-- A base container `S` owning one item `a`. -/
def singleState : Except PyErr Registry := do
  let sys ← newBaseMemory [] "S"
  let r ← memAdd sys "S" (itemOf "a" "v") 1
  Except.ok r.1

/-- A caller-constructed burn-after-read item. -/
def burnItem : MemoryItem :=
  mkMemoryItem
    { uid := "bi"
      content := Content.str "secret"
      source := "test"
      timestamp := 0
      r_protocol := MemoryItemReadProtocol.BURN_AFTER_READ } 0

/-- Container `M` with `burnItem` added and read once: the stored
item's state is now `EXPIRED`. -/
def burnState : Except PyErr Registry := do
  let sys ← newBaseMemory [] "M"
  let r ← memAdd sys "M" burnItem 1
  let r2 ← memRead r.1 "M" "bi" none false true none 2
  Except.ok r2.2

/-- The expired item extracted from `burnState`. -/
def expiredItemE : Except PyErr MemoryItem := do
  let sys ← burnState
  let m ← getMemory sys "M"
  match alFind "bi" m.items with
  | some it => Except.ok it
  | none => Except.error PyErr.keyError

/-- A list container `L` owning one item `a`. -/
def listState : Except PyErr LRegistry := do
  let lsys ← newListMemory [] "L"
  let r ← listAdd lsys "L" (itemOf "a" "1") none 1
  Except.ok r.1

/-- Two list containers: `L1` owns `y`; `L2` requests a link to it. -/
def twoListState : Except PyErr LRegistry := do
  let lsys ← newListMemory [] "L1"
  let lsys ← newListMemory lsys "L2"
  let r ← listAdd lsys "L1" (itemOf "y" "2") none 1
  Except.ok r.1

/-! ## Association-list lemmas -/

theorem alFind_insert_self {β : Type} (k : String) (v : β) (l : List (String × β)) :
    alFind k (alInsert k v l) = some v := by
  induction l with
  | nil => simp [alInsert, alFind]
  | cons hd tl ih =>
    obtain ⟨a, b⟩ := hd
    by_cases h : a = k
    · simp [alInsert, alFind, h]
    · simp [alInsert, alFind, h, ih]

theorem alFind_insert_ne {β : Type} {ki kf : String} (v : β) (l : List (String × β))
    (h : kf ≠ ki) : alFind kf (alInsert ki v l) = alFind kf l := by
  induction l with
  | nil =>
    simp only [alInsert, alFind]
    rw [if_neg (fun hh => h hh.symm)]
  | cons hd tl ih =>
    obtain ⟨a, b⟩ := hd
    by_cases hk : a = ki
    · subst hk
      simp only [alInsert, if_pos rfl, alFind]
      rw [if_neg (fun hh : a = kf => h hh.symm), if_neg (fun hh : a = kf => h hh.symm)]
    · simp only [alInsert, if_neg hk, alFind]
      by_cases hk' : a = kf
      · rw [if_pos hk', if_pos hk']
      · rw [if_neg hk', if_neg hk', ih]

theorem alFind_erase_ne {β : Type} {ke kf : String} (l : List (String × β))
    (h : kf ≠ ke) : alFind kf (alErase ke l) = alFind kf l := by
  induction l with
  | nil => simp [alErase, alFind]
  | cons hd tl ih =>
    obtain ⟨a, b⟩ := hd
    by_cases hk : a = ke
    · subst hk
      have he : alErase a ((a, b) :: tl) = tl := by simp [alErase]
      rw [he]
      have hf : alFind kf ((a, b) :: tl) = alFind kf tl := by
        simp only [alFind]
        rw [if_neg (fun hh : a = kf => h hh.symm)]
      rw [hf]
    · simp only [alErase, if_neg hk, alFind]
      by_cases hk' : a = kf
      · rw [if_pos hk', if_pos hk']
      · rw [if_neg hk', if_neg hk', ih]

theorem alFind_eq_none_of_not_mem_keys {β : Type} {k : String} {l : List (String × β)}
    (h : k ∉ l.map Prod.fst) : alFind k l = none := by
  induction l with
  | nil => simp [alFind]
  | cons hd tl ih =>
    obtain ⟨a, b⟩ := hd
    simp only [List.map_cons, List.mem_cons] at h
    push_neg at h
    simp only [alFind]
    rw [if_neg (fun hh : a = k => h.1 hh.symm)]
    exact ih h.2

theorem alFind_erase_self {β : Type} {k : String} {l : List (String × β)}
    (h : (l.map Prod.fst).Nodup) : alFind k (alErase k l) = none := by
  induction l with
  | nil => simp [alErase, alFind]
  | cons hd tl ih =>
    obtain ⟨a, b⟩ := hd
    simp only [List.map_cons, List.nodup_cons] at h
    by_cases hk : a = k
    · subst hk
      simp only [alErase, if_pos rfl]
      exact alFind_eq_none_of_not_mem_keys h.1
    · simp [alErase, alFind, hk, ih h.2]

theorem alFind_filter_none {β : Type} {k : String} {v : β}
    {l : List (String × β)} (p : String × β → Bool)
    (hfind : alFind k l = some v) (hnd : (l.map Prod.fst).Nodup)
    (hp : p (k, v) = false) : alFind k (l.filter p) = none := by
  induction l with
  | nil => simp [alFind] at hfind
  | cons hd tl ih =>
    obtain ⟨a, b⟩ := hd
    simp only [List.map_cons, List.nodup_cons] at hnd
    by_cases hk : a = k
    · subst hk
      simp only [alFind, if_pos] at hfind
      rw [Option.some.injEq] at hfind
      subst hfind
      rw [List.filter_cons, if_neg (by simp [hp])]
      exact alFind_eq_none_of_not_mem_keys
        (fun hmem => hnd.1 (List.map_subset Prod.fst (List.filter_subset' tl) hmem))
    · simp only [alFind, if_neg hk] at hfind
      rw [List.filter_cons]
      by_cases hpd : p (a, b)
      · rw [if_pos (by simp [hpd])]
        simp [alFind, hk, ih hfind hnd.2]
      · rw [if_neg (by simp [hpd])]
        exact ih hfind hnd.2

theorem alFind_filter_some {β : Type} {k : String} {v : β}
    {l : List (String × β)} (p : String × β → Bool)
    (hfind : alFind k l = some v) (hp : p (k, v) = true) :
    alFind k (l.filter p) = some v := by
  induction l with
  | nil => simp [alFind] at hfind
  | cons hd tl ih =>
    obtain ⟨a, b⟩ := hd
    by_cases hk : a = k
    · subst hk
      simp only [alFind, if_pos] at hfind
      rw [Option.some.injEq] at hfind
      subst hfind
      rw [List.filter_cons, if_pos (by simp [hp])]
      simp [alFind]
    · simp only [alFind, if_neg hk] at hfind
      rw [List.filter_cons]
      by_cases hpd : p (a, b)
      · rw [if_pos (by simp [hpd])]
        simp [alFind, hk, ih hfind]
      · rw [if_neg (by simp [hpd])]
        exact ih hfind

theorem alFind_filter_ne_key {β : Type} {k : String}
    {l : List (String × β)} (p : String × β → Bool)
    (hfind : alFind k l = none) : alFind k (l.filter p) = none := by
  induction l with
  | nil => simp [alFind]
  | cons hd tl ih =>
    obtain ⟨a, b⟩ := hd
    by_cases hk : a = k
    · simp [alFind, hk] at hfind
    · simp only [alFind, if_neg hk] at hfind
      rw [List.filter_cons]
      by_cases hpd : p (a, b)
      · rw [if_pos (by simp [hpd])]
        simp [alFind, hk, ih hfind]
      · rw [if_neg (by simp [hpd])]
        exact ih hfind

/-! ## Claim theorems -/

/-- **C7** (confirmed).  For the tree whose root `R` has ordered
children `[A, B]` and where `A` has child `C` (built by the public
`add` operations): pre-order traversal from `R` yields `[R, A, C, B]`,
post-order yields `[C, A, B, R]`, and level-order yields
`[[R], [A, B], [C]]`; and in each mode the visitor is invoked exactly
once per visited node with the current node and its parent (shown by
the exact invocation sequences, projected to uids). -/
theorem claim_C7_traversals :
    (liftTreeState.bind (fun tsys => do
      let t ← getTreeMemory tsys "t"
      let r ← treeTraverse t "R" "pre" false 10
      Except.ok (r.1, r.2.map (fun vc => (vc.1.item.uid, vc.2.map (fun p => p.item.uid)))))) =
      Except.ok (TravResult.flat
        [TravElem.content (Content.str "R"), TravElem.content (Content.str "A"),
         TravElem.content (Content.str "C"), TravElem.content (Content.str "B")],
        [("R", none), ("A", some "R"), ("C", some "A"), ("B", some "R")]) ∧
    (liftTreeState.bind (fun tsys => do
      let t ← getTreeMemory tsys "t"
      let r ← treeTraverse t "R" "post" false 10
      Except.ok (r.1, r.2.map (fun vc => (vc.1.item.uid, vc.2.map (fun p => p.item.uid)))))) =
      Except.ok (TravResult.flat
        [TravElem.content (Content.str "C"), TravElem.content (Content.str "A"),
         TravElem.content (Content.str "B"), TravElem.content (Content.str "R")],
        [("R", none), ("A", some "R"), ("C", some "A"), ("B", some "R")]) ∧
    (liftTreeState.bind (fun tsys => do
      let t ← getTreeMemory tsys "t"
      let r ← treeTraverse t "R" "layer" false 10
      Except.ok (r.1, r.2.map (fun vc => (vc.1.item.uid, vc.2.map (fun p => p.item.uid)))))) =
      Except.ok (TravResult.layers
        [[TravElem.content (Content.str "R")],
         [TravElem.content (Content.str "A"), TravElem.content (Content.str "B")],
         [TravElem.content (Content.str "C")]],
        [("R", none), ("A", some "R"), ("B", some "R"), ("C", some "A")]) := by
  refine ⟨by decide, by decide, by decide⟩

/-- **C6** (counterexample).  In the literal lift scenario the claim
asserts `children(R) = [C, B]`; the code leaves `[B, C]`:
`TreeMemoryItem.remove_child` drops `A` from `[A, B]` giving `[B]`,
and `add_child` then APPENDS the promoted child `C`. -/
theorem claim_C6_counterexample :
    (liftTreeDeleted.bind (fun tsys => do
      let t ← getTreeMemory tsys "t"
      Except.ok ((alFind "R" t.items).map (fun it => it.children_uids)))) ≠
      Except.ok (some ["C", "B"]) := by decide

/-- **C6** (corrected).  In the literal lift scenario
(`delete("A", with_children=False)`): `A`'s item is removed, `C` is
re-parented as a direct child of `R` with cached depth `1`, and `R`'s
child list equals `[B, C]` — the promoted child is appended after the
existing children, not inserted at `A`'s position. -/
theorem claim_C6_lift :
    (liftTreeDeleted.bind (fun tsys => do
      let t ← getTreeMemory tsys "t"
      Except.ok (alMem "A" t.items,
        (alFind "C" t.items).map (fun it => (it.parent_uid, it.depth)),
        (alFind "R" t.items).map (fun it => it.children_uids)))) =
      Except.ok (false, some (some "R", 1), some ["B", "C"]) := by decide

/-- **C5** (code bug).  On the chain forest `R → A → B → C → D`
(cached depths 0..4), `delete("A", with_children=False)` re-parents
`B` under `R`: `B` gets depth `1` and — via the one inner
`add_child` call — `C` gets depth `2`, but `D` keeps its stale depth
`4` while its parent `C` now has depth `2`, violating
`depth = parent.depth + 1`.  The cause: inside
`TreeMemoryItem.add_child` the recursive-refresh loop calls
`child.add_child(child_child)` without passing `recursive_depth=True`,
so the refresh stops at the grandchildren. -/
theorem claim_C5_depth_bug :
    (deepTreeDeleted.map (fun tsys =>
      (alFind "t" tsys).map (fun t =>
        ((alFind "B" t.items).map (fun it => (it.depth, it.parent_uid)),
         (alFind "C" t.items).map (fun it => (it.depth, it.parent_uid)),
         (alFind "D" t.items).map (fun it => (it.depth, it.parent_uid))))) =
      Except.ok (some (some (1, some "R"), some (2, some "B"), some (4, some "C")))) ∧
    (4 : Nat) ≠ 2 + 1 := by
  refine ⟨by decide, by decide⟩

/-- **C9** (code bug).  Deleting a missing identifier:
* `ListMemory.delete` with ANY string identifier (present or not)
  raises `UnboundLocalError`, because the branch evaluates
  `identifier in index` before the local `index` is ever assigned —
  the "return false" flag never gets a chance;
* in raising mode, `BaseMemory.delete` (also inherited by the keyed
  `DictMemory`) and the out-of-range `ListMemory` path raise
  `NotImplementedError` — not `iGymMemoryItemNotFound` — because the
  exception constructor itself raises for those classes; the same
  happens for `BaseMemory.read` in raising mode, although the
  repository's own test `test_nonexistent_item` expects
  `iGymMemoryItemNotFound` there;
* only `TreeMemory.delete` behaves as claimed (returns `False` under
  the flag, raises the real `iGymMemoryItemNotFound` otherwise), and
  the base "return false" mode does return `False` without side
  effects. -/
theorem claim_C9_miss_behavior :
    (listState.bind (fun lsys => listDelete lsys "L" (ListIdent.str "zzz") false true 2)) =
      Except.error PyErr.unboundLocalIndex ∧
    (listState.bind (fun lsys => listDelete lsys "L" (ListIdent.str "a") false true 2)) =
      Except.error PyErr.unboundLocalIndex ∧
    (listState.bind (fun lsys => listDelete lsys "L" (ListIdent.int 5) false false 2)) =
      Except.error PyErr.notImplemented ∧
    (singleState.bind (fun sys => memDelete sys 3 "S" "zzz" false false 2)) =
      Except.error PyErr.notImplemented ∧
    (singleState.bind (fun sys => memRead sys "S" "zzz" none false false none 2)) =
      Except.error PyErr.notImplemented ∧
    (singleState.bind (fun sys => memDelete sys 3 "S" "zzz" false true 2)) =
      singleState.map (fun sys => (sys, false)) ∧
    (liftTreeState.bind (fun tsys => treeDelete tsys 5 "t" "zzz" false false 9)) =
      Except.error PyErr.itemNotFound ∧
    (liftTreeState.bind (fun tsys => treeDelete tsys 5 "t" "zzz" false true 9)) =
      liftTreeState.map (fun tsys => (tsys, false)) := by
  refine ⟨by decide, by decide, by decide, by decide, by decide, by decide, by decide, by decide⟩

/-- **C10** (code bug).  `BaseMemory.request_link` records the forward
link under the local key but returns `None` on every path — there is
no `return` statement carrying the key, although the docstring
promises the "source item uid".  `ListMemory.request_link` then
appends that `None` to `item_list` and returns a numeric index, not
the local key. -/
theorem claim_C10_request_link_return :
    (do
      let sys ← newBaseMemory ([] : Registry) "A"
      let sys ← newBaseMemory sys "B"
      let r ← memAdd sys "B" (itemOf "x" "shared") 1
      let r2 ← requestLink r.1 "A" "B" "x" none 5
      Except.ok (r2.2, (alFind "A" r2.1).map (fun m => m.links))) =
      Except.ok (none, some [("x", ("B", "x"))]) ∧
    (twoListState.bind (fun lsys =>
      (listRequestLink lsys "L2" "L1" "y" none none 5).map
        (fun r => ((alFind "L2" r.1).map (fun lm => (lm.item_list, lm.links)), r.2)))) =
      Except.ok (some ([none], [("y", ("L1", "y"))]), 0) := by
  refine ⟨by decide, by decide⟩

/-- **C1** (counterexample).  A chain of two links, built by the
public operations with default local keys (`A ─x→ B ─x→ C`, `C` owns
the accessible item `x`): reading the chain's head key from `A` does
NOT return the owner's content — it raises `TypeError`, because
`BaseMemory.read` forwards `accessed_via` both explicitly and inside
`**kwargs` on the second hop.  Reading the owner directly returns the
content, so the two results differ. -/
theorem claim_C1_counterexample :
    (chainState.bind (fun sys =>
      (memRead sys "A" "x" none false true none 10).map Prod.fst)) =
      Except.error PyErr.typeErrorDuplicateKw ∧
    (chainState.bind (fun sys =>
      (memRead sys "C" "x" none false true none 10).map Prod.fst)) =
      Except.ok (ReadOut.content (Content.str "shared")) := by
  refine ⟨by decide, by decide⟩

/-- **C2** (counterexample).  In the same two-link chain, `A`'s
forward entry `x ↦ (B, x)` resolves through `B` to the item owned by
`C`, and `A` is recorded in `C`'s reverse index; yet after
`C.delete("x")` the entry is still present in `A`'s link table — the
cascade only strips entries stored literally as `(C, x)`.  Reading
that surviving link key from `A` nevertheless returns the miss
sentinel, because the intermediate hop in `B` WAS stripped. -/
theorem claim_C2_counterexample :
    (chainState.bind (fun sys => do
      let a ← getMemory sys "A"
      let b ← getMemory sys "B"
      let c ← getMemory sys "C"
      Except.ok (alFind "x" a.links, alFind "x" b.links, alMem "x" c.items,
        (alFind "A" c.reverse_links).getD []))) =
      Except.ok (some ("B", "x"), some ("C", "x"), true, [("x", "x")]) ∧
    (chainAfterDelete.bind (fun sys => do
      let a ← getMemory sys "A"
      Except.ok (alFind "x" a.links))) = Except.ok (some ("B", "x")) ∧
    (chainAfterDelete.bind (fun sys =>
      (memRead sys "A" "x" none false true none 10).map Prod.fst)) =
      Except.ok ReadOut.nothing := by
  refine ⟨by decide, by decide, by decide⟩

/-- **C3** (counterexample).  Two violations, both reachable by
public operations.  First: `B.request_link("C", "x")` then
`C.delete("x")` — after the delete, `C`'s reverse index still records
the pair `("x", "x")` for `B`, but `B` no longer holds any forward
entry: a reverse-index entry with no matching forward entry.  Second:
calling `A.request_link("B", "x", "k")` twice (the duplicate check
consults `items` only) leaves ONE forward entry in `A` but TWO
identical reverse pairs in `B`'s bucket — not "exactly one matching
reverse-index entry". -/
theorem claim_C3_counterexample :
    (chainAfterDelete.bind (fun sys => do
      let b ← getMemory sys "B"
      let c ← getMemory sys "C"
      Except.ok ((alFind "B" c.reverse_links).getD [], b.links))) =
      Except.ok ([("x", "x")], []) ∧
    (doubleRequestState.bind (fun sys => do
      let a ← getMemory sys "A"
      let b ← getMemory sys "B"
      Except.ok (a.links, (alFind "A" b.reverse_links).getD []))) =
      Except.ok ([("k", ("B", "x"))], [("k", "x"), ("k", "x")]) := by
  refine ⟨by decide, by decide⟩

/-- **C4** (counterexample).  A base container with one item: after
`load(save(c))` the reconstructed item does NOT agree field-for-field
with the original — pydantic `model_post_init` runs again during
`item_class(**item_data)` and appends a second `"init"` entry, so the
history log differs (length 3 vs 2). -/
theorem claim_C4_counterexample :
    (singleState.bind (fun sys => do
      let m ← getMemory sys "S"
      let r ← memLoad [] (memSave m "BaseMemory") 9
      Except.ok (decide (r.2.items = m.items),
        (alFind "a" m.items).map (fun it => it.history.length),
        (alFind "a" r.2.items).map (fun it => it.history.length)))) =
      Except.ok (false, some 2, some 3) := by decide

/-- **C8** (counterexample).  An item expired by a burn-after-read
read (state `EXPIRED` while stored in container `M`) is handed to
`BaseMemory.add` of a second container `N`: `add` unconditionally runs
the `WRITING` → `NORMAL` handshake on whatever item it receives, and
the stored state is `NORMAL` again — the item returned to `NORMAL`
under a public operation. -/
theorem claim_C8_counterexample :
    expiredItemE.map (fun it => it.state) = Except.ok MemoryItemState.EXPIRED ∧
    (do
      let it ← expiredItemE
      let sys ← newBaseMemory ([] : Registry) "N"
      let r ← memAdd sys "N" it 3
      let m ← getMemory r.1 "N"
      Except.ok ((alFind "bi" m.items).map (fun st => st.state))) =
      Except.ok (some MemoryItemState.NORMAL) := by
  refine ⟨by decide, by decide⟩

/-- **C3** (corrected, amended).  What `request_link` does guarantee,
for a target resolved through arbitrarily many hops of the target
container's link table: whenever the resolution loop reaches an owner
(`resolveOwnerLoop` succeeds with `(owner, o)`), a
`A.request_link(tgt, tit, k)` call with a fresh local key `k` inserts,
within that single operation, both the forward entry — stored as
`k ↦ (tgt, o)`, i.e. the ORIGINAL target container uid paired with the
RESOLVED item uid — and the matching reverse-index pair `(k, o)`
appended to the resolved owner's bucket for `A`.  (The correspondence
is neither bidirectional nor exactly-one in general — see the
counterexample.) -/
theorem claim_C3_request_link_inserts (sys : Registry) (a tgt tit k o : String)
    (A T0 owner : BaseMemory) (fuel : Nat)
    (hA : alFind a sys = some A) (hAu : A.uid = a)
    (hta : tgt ≠ a)
    (hfresh : alMem k A.items = false)
    (hT0 : alFind tgt sys = some T0)
    (hres : resolveOwnerLoop sys fuel T0 tit = Except.ok (owner, o))
    (hoa : owner.uid ≠ a) :
    ∃ sys', requestLink sys a tgt tit (some k) fuel = Except.ok (sys', none) ∧
      (alFind a sys').map (fun m => alFind k m.links) = some (some (tgt, o)) ∧
      (alFind owner.uid sys').map (fun m => (alFind a m.reverse_links).getD []) =
        some (((alFind a owner.reverse_links).getD []) ++ [(k, o)]) := by
  have hga : getMemory sys a = Except.ok A := by simp [getMemory, hA]
  have hgt : getMemory sys tgt = Except.ok T0 := by simp [getMemory, hT0]
  have htA : ¬ tgt = A.uid := by rw [hAu]; exact hta
  have hoA : owner.uid ≠ A.uid := by rw [hAu]; exact hoa
  have haO : a ≠ owner.uid := fun hh => hoa hh.symm
  refine ⟨putMemory (putMemory sys { A with links := alInsert k (tgt, o) A.links })
    { owner with reverse_links := alInsert A.uid (((alFind A.uid owner.reverse_links).getD []) ++ [(k, o)]) owner.reverse_links },
    ?_, ?_, ?_⟩
  · simp [requestLink, hga, hgt, htA, hoA, hfresh, hres, Except.bind, bind, putMemory]
  · rw [putMemory, putMemory]
    show (alFind a (alInsert owner.uid _ (alInsert (BaseMemory.mk A.uid A.items
      (alInsert k (tgt, o) A.links) A.reverse_links).uid _ sys))).map _ = _
    rw [show (BaseMemory.mk A.uid A.items (alInsert k (tgt, o) A.links) A.reverse_links).uid
      = a from hAu]
    rw [alFind_insert_ne _ _ haO, alFind_insert_self]
    simp only [Option.map_some']
    rw [alFind_insert_self]
  · rw [putMemory, putMemory]
    show (alFind owner.uid (alInsert owner.uid _ _)).map _ = _
    rw [alFind_insert_self]
    simp only [Option.map_some']
    rw [hAu, alFind_insert_self]
    simp

/-! ### Helper lemmas about reads -/

/-- An accessible item's state is `NORMAL` and it is not expired. -/
theorem is_accessible_elim {it : MemoryItem} {now : Nat}
    (hacc : it.is_accessible now = true) :
    it.state = MemoryItemState.NORMAL ∧ it.is_expired now = false := by
  simp only [MemoryItem.is_accessible, Bool.and_eq_true, decide_eq_true_eq,
    Bool.not_eq_true'] at hacc
  exact hacc

/-- Reading an accessible item with `return_meta=False` yields its
content, whatever the read protocol does to its state. -/
theorem read_content_of_accessible (it : MemoryItem) (now : Nat)
    (reader : Option String) (av : Option (String × String))
    (hacc : it.is_accessible now = true) :
    (it.read now false reader av).1 = MemoryItem.ReadResult.content it.content := by
  obtain ⟨h1, h2⟩ := is_accessible_elim hacc
  simp only [MemoryItem.read, h1, h2, MemoryItem.update_history, ne_eq,
    not_true_eq_false, if_false, Bool.false_eq_true]
  split <;> rfl

/-- `memReadLocal` on an accessible owned item returns its content. -/
theorem memReadLocal_content (sys : Registry) (m : BaseMemory) (k : String)
    (reader : Option String) (rnie : Bool) (av : Option (String × String)) (now : Nat)
    (it : MemoryItem) (hfind : alFind k m.items = some it)
    (hacc : it.is_accessible now = true) :
    (memReadLocal sys m k reader false rnie av now).map Prod.fst =
      Except.ok (ReadOut.content it.content) := by
  simp only [memReadLocal, hfind, hacc, Bool.not_true, Bool.false_eq_true, if_false,
    Except.map, itemResultToOut]
  rw [show (it.read now false reader av).1 = MemoryItem.ReadResult.content it.content from
    read_content_of_accessible it now reader av hacc]

/-- `memReadLocal` on a key naming no owned item returns the miss
sentinel when `return_none_if_error` is set. -/
theorem memReadLocal_miss (sys : Registry) (m : BaseMemory) (k : String)
    (reader : Option String) (rm : Bool) (av : Option (String × String)) (now : Nat)
    (hfind : alFind k m.items = none) :
    memReadLocal sys m k reader rm true av now = Except.ok (ReadOut.nothing, sys) := by
  simp [memReadLocal, hfind]

/-- **C1** (corrected, amended).  For a chain of exactly ONE link —
`A` holds `k ↦ (b, t)`, container `B` truly owns the accessible item
`t` (and `t` is not shadowed by a link in `B`, `k` not shadowed by an
item in `A`): reading `k` from `A` returns content identical to
reading `t` from `B` directly; after revoking that single link,
reading `k` from `A` returns the miss sentinel `None`, while the
owner's item, the owner's own forward links, and every container other
than `A` and `B` are unchanged (`B` only loses the reverse-index pair;
`A` only loses the one forward entry).  Chains of two or more links
instead raise `TypeError` (see the counterexample). -/
theorem claim_C1_single_link_transparency (sys : Registry) (a b k t : String)
    (A B : BaseMemory) (it : MemoryItem) (reader : Option String) (now : Nat)
    (hA : alFind a sys = some A) (hAu : A.uid = a)
    (hlink : alFind k A.links = some (b, t))
    (hB : alFind b sys = some B) (hBu : B.uid = b)
    (hab : a ≠ b)
    (hnotitem : alFind k A.items = none)
    (hlinksnd : (A.links.map Prod.fst).Nodup)
    (hBt_nolink : alFind t B.links = none)
    (hBt : alFind t B.items = some it)
    (hacc : it.is_accessible now = true) :
    (memRead sys a k reader false true none now).map Prod.fst =
      Except.ok (ReadOut.content it.content) ∧
    (memRead sys b t reader false true none now).map Prod.fst =
      Except.ok (ReadOut.content it.content) ∧
    ∃ sys', revokeLink sys a k = Except.ok sys' ∧
      (memRead sys' a k reader false true none now).map Prod.fst =
        Except.ok ReadOut.nothing ∧
      (alFind b sys').map (fun m => alFind t m.items) = some (some it) ∧
      (∀ c, c ≠ a → c ≠ b → alFind c sys' = alFind c sys) ∧
      (alFind a sys').map (fun m => m.links) = some (alErase k A.links) ∧
      (alFind b sys').map (fun m => m.links) = some B.links := by
  have hga : getMemory sys a = Except.ok A := by simp [getMemory, hA]
  have hgb : getMemory sys b = Except.ok B := by simp [getMemory, hB]
  have hba : b ≠ a := fun hh => hab hh.symm
  refine ⟨?_, ?_, ?_⟩
  · simp only [memRead, hga, Except.bind, bind, hlink, hB, Option.isSome_none,
      Bool.false_eq_true, if_false, hBt_nolink]
    exact memReadLocal_content sys B t reader true (some (A.uid, k)) now it hBt hacc
  · simp only [memRead, hgb, Except.bind, bind, hBt_nolink]
    exact memReadLocal_content sys B t reader true none now it hBt hacc
  · refine ⟨putMemory (putMemory sys { A with links := alErase k A.links }) { B with reverse_links := alInsert a (((alFind a B.reverse_links).getD []).filter (fun p => p.1 ≠ k)) B.reverse_links }, ?_, ?_, ?_, ?_, ?_, ?_⟩
    · have hbne : ¬ b = A.uid := by rw [hAu]; exact hba
      have hfind2 : alFind b (putMemory sys { A with links := alErase k A.links }) =
          some B := by
        rw [putMemory]
        show alFind b (alInsert A.uid _ sys) = some B
        rw [hAu, alFind_insert_ne _ _ hba, hB]
      simp only [revokeLink, getMemory, hA, Except.bind, bind, hlink, if_neg hbne, hfind2]
    · have hfa : alFind a (putMemory (putMemory sys { A with links := alErase k A.links }) { B with reverse_links := alInsert a (((alFind a B.reverse_links).getD []).filter (fun p => p.1 ≠ k)) B.reverse_links }) = some { A with links := alErase k A.links } := by
        rw [putMemory, putMemory]
        show alFind a (alInsert B.uid _ (alInsert A.uid _ sys)) = _
        rw [hBu, hAu, alFind_insert_ne _ _ hab, alFind_insert_self]
      simp only [memRead, getMemory, hfa, Except.bind, bind]
      rw [show alFind k ({ A with links := alErase k A.links } : BaseMemory).links = none from
        alFind_erase_self hlinksnd]
      simp only [memReadLocal, hnotitem, Except.map]
      simp
    · rw [putMemory, putMemory]
      show (alFind b (alInsert B.uid _ _)).map _ = _
      rw [hBu, alFind_insert_self]
      simp only [Option.map_some']
      rw [show ({ B with reverse_links := alInsert a (((alFind a B.reverse_links).getD []).filter (fun p => p.1 ≠ k)) B.reverse_links } : BaseMemory).items = B.items from rfl, hBt]
    · intro c hca hcb
      rw [putMemory, putMemory]
      show alFind c (alInsert B.uid _ (alInsert A.uid _ sys)) = _
      rw [hBu, hAu, alFind_insert_ne _ _ hcb, alFind_insert_ne _ _ hca]
    · rw [putMemory, putMemory]
      show (alFind a (alInsert B.uid _ (alInsert A.uid _ sys))).map _ = _
      rw [hBu, hAu, alFind_insert_ne _ _ hab, alFind_insert_self]
      rfl
    · rw [putMemory, putMemory]
      show (alFind b (alInsert B.uid _ _)).map _ = _
      rw [hBu, alFind_insert_self]
      rfl

/-! ### Witness states -/

/-- Witness container `B`: owns the item `x`. -/
def witMemB : BaseMemory := { uid := "B", items := [("x", itemOf "x" "v")] }

/-- Witness container `A`: holds the single-hop link `k ↦ (B, x)`. -/
def witMemA : BaseMemory := { uid := "A", links := [("k", ("B", "x"))] }

/-- Witness registry with the two containers above. -/
def witSys : Registry := [("A", witMemA), ("B", witMemB)]

/-- Witness for the amended C1 theorem at the concrete two-container
single-link state. -/
theorem claim_C1_single_link_transparency_witness :
    (alFind "A" witSys = some witMemA ∧ witMemA.uid = "A" ∧
     alFind "k" witMemA.links = some ("B", "x") ∧
     alFind "B" witSys = some witMemB ∧ witMemB.uid = "B" ∧
     ("A" : String) ≠ "B" ∧ alFind "k" witMemA.items = none ∧
     (witMemA.links.map Prod.fst).Nodup ∧
     alFind "x" witMemB.links = none ∧
     alFind "x" witMemB.items = some (itemOf "x" "v") ∧
     (itemOf "x" "v").is_accessible 5 = true) ∧
    ((memRead witSys "A" "k" none false true none 5).map Prod.fst =
      Except.ok (ReadOut.content (itemOf "x" "v").content) ∧
    (memRead witSys "B" "x" none false true none 5).map Prod.fst =
      Except.ok (ReadOut.content (itemOf "x" "v").content) ∧
    ∃ sys', revokeLink witSys "A" "k" = Except.ok sys' ∧
      (memRead sys' "A" "k" none false true none 5).map Prod.fst =
        Except.ok ReadOut.nothing ∧
      (alFind "B" sys').map (fun m => alFind "x" m.items) = some (some (itemOf "x" "v")) ∧
      (∀ c, c ≠ "A" → c ≠ "B" → alFind c sys' = alFind c witSys) ∧
      (alFind "A" sys').map (fun m => m.links) = some (alErase "k" witMemA.links) ∧
      (alFind "B" sys').map (fun m => m.links) = some witMemB.links) :=
  ⟨⟨by decide, by decide, by decide, by decide, by decide, by decide, by decide,
    by decide, by decide, by decide, by decide⟩,
   claim_C1_single_link_transparency witSys "A" "B" "k" "x" witMemA witMemB
     (itemOf "x" "v") none 5 (by decide) (by decide) (by decide) (by decide) (by decide)
     (by decide) (by decide) (by decide) (by decide) (by decide) (by decide)⟩

/-- Witness container `A2`: empty requester. -/
def witMemA2 : BaseMemory := { uid := "A" }

/-- Witness container `B2`: does NOT own `x` but links it to `C`,
so the resolution loop must follow one hop. -/
def witMemB2 : BaseMemory := { uid := "B", links := [("x", ("C", "x"))] }

/-- Witness container `C2`: the actual owner of item `x`. -/
def witMemC2 : BaseMemory := { uid := "C", items := [("x", itemOf "x" "v")] }

/-- Witness registry with the three-container chain `A`, `B → C`, `C`. -/
def witSys3 : Registry := [("A", witMemA2), ("B", witMemB2), ("C", witMemC2)]

/-- Witness for the amended C3 theorem at a chain-resolved state: `A`
targets `B.x`, which `B` does not own; the loop resolves the owner to
`C`, the forward entry is stored as `(B, x)` and the reverse pair lands
on `C`. -/
theorem claim_C3_request_link_inserts_witness :
    (alFind "A" witSys3 = some witMemA2 ∧ alMem "k" witMemA2.items = false ∧
     alFind "B" witSys3 = some witMemB2 ∧
     resolveOwnerLoop witSys3 5 witMemB2 "x" = Except.ok (witMemC2, "x")) ∧
    (∃ sys', requestLink witSys3 "A" "B" "x" (some "k") 5 = Except.ok (sys', none) ∧
      (alFind "A" sys').map (fun m => alFind "k" m.links) = some (some ("B", "x")) ∧
      (alFind witMemC2.uid sys').map (fun m => (alFind "A" m.reverse_links).getD []) =
        some (((alFind "A" witMemC2.reverse_links).getD []) ++ [("k", "x")])) :=
  ⟨⟨by decide, by decide, by decide, by decide⟩,
   claim_C3_request_link_inserts witSys3 "A" "B" "x" "k" "x" witMemA2 witMemB2 witMemC2 5
     (by decide) (by decide) (by decide) (by decide) (by decide) (by decide) (by decide)⟩

/-! ### The cascading-delete specification -/

/-- Filtering twice with the same predicate is filtering once. -/
theorem filter_idem {α : Type} (p : α → Bool) (l : List α) :
    (l.filter p).filter p = l.filter p := by
  induction l with
  | nil => simp
  | cons hd tl ih =>
    by_cases h : p hd
    · simp [List.filter_cons, h, ih]
    · simp [List.filter_cons, h, ih]

/-- Registry consistency: every registered container is stored under
its own uid (true of every state built by the public operations). -/
def RegOk (sys : Registry) : Prop :=
  ∀ u m, alFind u sys = some m → m.uid = u

/-- `alFind` returns an entry of the list. -/
theorem alFind_mem {β : Type} {k : String} {v : β} {l : List (String × β)}
    (h : alFind k l = some v) : (k, v) ∈ l := by
  induction l with
  | nil => simp [alFind] at h
  | cons hd tl ih =>
    obtain ⟨a, b⟩ := hd
    by_cases hk : a = k
    · subst hk
      rw [show alFind a ((a, b) :: tl) = some b from by simp [alFind]] at h
      rw [Option.some.injEq] at h
      subst h
      exact List.mem_cons_self _ _
    · simp only [alFind, if_neg hk] at h
      exact List.mem_cons_of_mem _ (ih h)

/-- Decidable sufficient check for `RegOk`. -/
theorem regOk_of_all {sys : Registry}
    (h : sys.all (fun kv => decide (kv.2.uid = kv.1)) = true) : RegOk sys := by
  intro u m hfind
  have hmem := alFind_mem hfind
  have := List.all_eq_true.mp h _ hmem
  simpa using this

/-- Specification of the cascading-invalidation loop of
`BaseMemory.delete`: every container uid recorded in `keys` (all
registered) has its forward entries equal to `(c, i)` filtered out;
containers outside `keys` are untouched; nothing else changes. -/
theorem stripLinksTo_spec (c i : String) :
    ∀ (keys : List String) (sys : Registry),
      (∀ u, u ∈ keys → (alFind u sys).isSome = true) →
      RegOk sys →
      ∃ sys', stripLinksTo c i sys keys = Except.ok sys' ∧
        RegOk sys' ∧
        (∀ u, u ∈ keys →
          alFind u sys' = (alFind u sys).map
            (fun m => { m with links := m.links.filter (fun kv => kv.2 ≠ (c, i)) })) ∧
        (∀ u, u ∉ keys → alFind u sys' = alFind u sys)
  | [], sys, _, hreg => ⟨sys, rfl, hreg, by simp, fun _ _ => rfl⟩
  | u0 :: rest, sys, hmem, hreg => by
    have h0 : (alFind u0 sys).isSome = true := hmem u0 (List.mem_cons_self _ _)
    obtain ⟨mem, hm0⟩ : ∃ m, alFind u0 sys = some m := by
      cases hf : alFind u0 sys with
      | none => rw [hf] at h0; simp at h0
      | some m => exact ⟨m, rfl⟩
    have huid : mem.uid = u0 := hreg u0 mem hm0
    have hsys1 : ∀ u,
        alFind u (putMemory sys { mem with links := mem.links.filter (fun kv => kv.2 ≠ (c, i)) }) =
          if u = u0 then some { mem with links := mem.links.filter (fun kv => kv.2 ≠ (c, i)) }
          else alFind u sys := by
      intro u
      rw [putMemory]
      show alFind u (alInsert mem.uid _ sys) = _
      rw [huid]
      by_cases hu : u = u0
      · subst hu; rw [alFind_insert_self, if_pos rfl]
      · rw [alFind_insert_ne _ _ hu, if_neg hu]
    have hreg1 : RegOk (putMemory sys { mem with links := mem.links.filter (fun kv => kv.2 ≠ (c, i)) }) := by
      intro u m hf
      rw [hsys1 u] at hf
      by_cases hu : u = u0
      · rw [if_pos hu] at hf
        rw [Option.some.injEq] at hf
        rw [← hf]
        show mem.uid = u
        rw [huid, hu]
      · rw [if_neg hu] at hf
        exact hreg u m hf
    have hmem1 : ∀ u, u ∈ rest →
        (alFind u (putMemory sys { mem with links := mem.links.filter (fun kv => kv.2 ≠ (c, i)) })).isSome = true := by
      intro u hu
      rw [hsys1 u]
      by_cases h : u = u0
      · rw [if_pos h]; rfl
      · rw [if_neg h]; exact hmem u (List.mem_cons_of_mem _ hu)
    obtain ⟨sys', hstrip, hreg', hin, hout⟩ :=
      stripLinksTo_spec c i rest (putMemory sys { mem with links := mem.links.filter (fun kv => kv.2 ≠ (c, i)) }) hmem1 hreg1
    refine ⟨sys', ?_, hreg', ?_, ?_⟩
    · simp only [stripLinksTo, getMemory, hm0, Except.bind, bind]
      exact hstrip
    · intro u hu
      rcases List.mem_cons.mp hu with hu0 | hur
      · subst hu0
        by_cases hr : u ∈ rest
        · rw [hin u hr, hsys1 u, if_pos rfl, hm0]
          simp only [Option.map_some']
          rw [show ({ mem with links := mem.links.filter (fun kv => kv.2 ≠ (c, i)) } : BaseMemory).links.filter (fun kv => kv.2 ≠ (c, i)) = mem.links.filter (fun kv => kv.2 ≠ (c, i)) from filter_idem _ mem.links]
        · rw [hout u hr, hsys1 u, if_pos rfl, hm0]
          simp only [Option.map_some']
      · rw [hin u hur, hsys1 u]
        by_cases h : u = u0
        · rw [if_pos h, h, hm0]
          simp only [Option.map_some']
          rw [show ({ mem with links := mem.links.filter (fun kv => kv.2 ≠ (c, i)) } : BaseMemory).links.filter (fun kv => kv.2 ≠ (c, i)) = mem.links.filter (fun kv => kv.2 ≠ (c, i)) from filter_idem _ mem.links]
        · rw [if_neg h]
    · intro u hu
      have hu0 : u ≠ u0 := fun h => hu (h ▸ List.mem_cons_self _ _)
      have hur : u ∉ rest := fun h => hu (List.mem_cons_of_mem _ h)
      rw [hout u hur, hsys1 u, if_neg hu0]

/-- **C2** (corrected, amended).  `C.delete(i)` on an owned item `i`:
the item is removed, and — eagerly, inside the same delete call,
driven by `C`'s reverse index — every container recorded in that
reverse index has every forward entry whose STORED pair equals
`(c, i)` stripped; a subsequent read of such a stripped link key
reports the miss sentinel.  (This is weaker than the claim: a forward
entry that resolves to `(c, i)` only through an intermediate container
is stored with a different pair and survives — see the
counterexample.)  Containers not recorded in the reverse index are
untouched. -/
theorem claim_C2_cascading_delete (sys : Registry) (c i : String) (C : BaseMemory)
    (fuel now : Nat) (rfie : Bool)
    (hreg : RegOk sys)
    (hC : alFind c sys = some C)
    (hCit : alMem i C.items = true)
    (hCnl : alFind i C.links = none)
    (hCnodup : (C.items.map Prod.fst).Nodup)
    (hkeys : ∀ u, u ∈ C.reverse_links.map Prod.fst → (alFind u sys).isSome = true) :
    ∃ sys', memDelete sys (fuel + 1) c i false rfie now = Except.ok (sys', true) ∧
      (alFind c sys').map (fun m => alFind i m.items) = some none ∧
      (∀ u, u ∈ C.reverse_links.map Prod.fst → u ≠ c →
        alFind u sys' = (alFind u sys).map
          (fun m => { m with links := m.links.filter (fun kv => kv.2 ≠ (c, i)) })) ∧
      (∀ u, u ∉ C.reverse_links.map Prod.fst → u ≠ c → alFind u sys' = alFind u sys) ∧
      (∀ u m k reader, u ∈ C.reverse_links.map Prod.fst → u ≠ c →
        alFind u sys = some m → alFind k m.links = some (c, i) →
        (m.links.map Prod.fst).Nodup → alFind k m.items = none →
        (memRead sys' u k reader false true none now).map Prod.fst =
          Except.ok ReadOut.nothing) := by
  obtain ⟨sys1, hstrip, hreg1, hin, hout⟩ :=
    stripLinksTo_spec c i (C.reverse_links.map Prod.fst) sys hkeys hreg
  have hCu : C.uid = c := hreg c C hC
  obtain ⟨C2, hC2, hC2items, hC2uid⟩ :
      ∃ C2, alFind c sys1 = some C2 ∧ C2.items = C.items ∧ C2.uid = c := by
    by_cases hc : c ∈ C.reverse_links.map Prod.fst
    · refine ⟨{ C with links := C.links.filter (fun kv => kv.2 ≠ (c, i)) }, ?_, rfl, hCu⟩
      rw [hin c hc, hC]
      simp only [Option.map_some']
    · exact ⟨C, by rw [hout c hc, hC], rfl, hCu⟩
  have hCit2 : (alFind i C.items).isSome = true := hCit
  have hmain : memDelete sys (fuel + 1) c i false rfie now =
      Except.ok (alInsert c { C2 with items := alErase i C2.items } sys1, true) := by
    simp only [memDelete, getMemory, hC, Except.bind, bind, Bool.false_eq_true, if_false,
      alMem, hCnl, Option.isSome_none, memDeleteLocal, hCit2, if_true, hstrip, hC2]
    rw [putMemory]
    rw [show ({ C2 with items := alErase i C2.items } : BaseMemory).uid = c from hC2uid]
  refine ⟨alInsert c { C2 with items := alErase i C2.items } sys1, hmain, ?_, ?_, ?_, ?_⟩
  · rw [alFind_insert_self]
    simp only [Option.map_some', Option.some.injEq]
    show alFind i (alErase i C2.items) = none
    rw [hC2items]
    exact alFind_erase_self hCnodup
  · intro u hu hne
    rw [alFind_insert_ne _ _ hne, hin u hu]
  · intro u hu hne
    rw [alFind_insert_ne _ _ hne, hout u hu]
  · intro u m k reader hu hne hm hk hnd hki
    have hu' : alFind u (alInsert c { C2 with items := alErase i C2.items } sys1) =
        some { m with links := m.links.filter (fun kv => kv.2 ≠ (c, i)) } := by
      rw [alFind_insert_ne _ _ hne, hin u hu, hm]
      simp only [Option.map_some']
    have hklinks : alFind k ({ m with links := m.links.filter (fun kv => kv.2 ≠ (c, i)) }
        : BaseMemory).links = none := by
      show alFind k (m.links.filter (fun kv => kv.2 ≠ (c, i))) = none
      exact alFind_filter_none _ hk hnd (by simp)
    simp only [memRead, getMemory, hu', Except.bind, bind, hklinks]
    rw [show memReadLocal (alInsert c { C2 with items := alErase i C2.items } sys1) { m with links := m.links.filter (fun kv => kv.2 ≠ (c, i)) } k reader false true none now = Except.ok (ReadOut.nothing, alInsert c { C2 with items := alErase i C2.items } sys1) from memReadLocal_miss _ _ _ _ _ _ _ hki]
    rfl

/-- Witness container `C`: owns item `i`, with `D` recorded in its
reverse index. -/
def witMemC : BaseMemory :=
  { uid := "C", items := [("i", itemOf "i" "w")], reverse_links := [("D", [("k", "i")])] }

/-- Witness container `D`: holds the forward entry `k ↦ (C, i)`. -/
def witMemD : BaseMemory := { uid := "D", links := [("k", ("C", "i"))] }

/-- Witness registry for the cascading delete. -/
def witSysCD : Registry := [("C", witMemC), ("D", witMemD)]

/-- Witness for the amended C2 theorem at the concrete two-container
state: deleting `C.i` strips `D`'s entry and `D`'s read then misses. -/
theorem claim_C2_cascading_delete_witness :
    (RegOk witSysCD ∧ alFind "C" witSysCD = some witMemC ∧
     alMem "i" witMemC.items = true ∧ alFind "i" witMemC.links = none ∧
     (witMemC.items.map Prod.fst).Nodup ∧
     (∀ u, u ∈ witMemC.reverse_links.map Prod.fst → (alFind u witSysCD).isSome = true)) ∧
    (∃ sys', memDelete witSysCD (3 + 1) "C" "i" false true 9 = Except.ok (sys', true) ∧
      (alFind "C" sys').map (fun m => alFind "i" m.items) = some none ∧
      (∀ u, u ∈ witMemC.reverse_links.map Prod.fst → u ≠ "C" →
        alFind u sys' = (alFind u witSysCD).map
          (fun m => { m with links := m.links.filter (fun kv => kv.2 ≠ ("C", "i")) })) ∧
      (∀ u, u ∉ witMemC.reverse_links.map Prod.fst → u ≠ "C" →
        alFind u sys' = alFind u witSysCD) ∧
      (∀ u m k reader, u ∈ witMemC.reverse_links.map Prod.fst → u ≠ "C" →
        alFind u witSysCD = some m → alFind k m.links = some ("C", "i") →
        (m.links.map Prod.fst).Nodup → alFind k m.items = none →
        (memRead sys' u k reader false true none 9).map Prod.fst =
          Except.ok ReadOut.nothing)) :=
  ⟨⟨regOk_of_all (by decide), by decide, by decide, by decide, by decide, by decide⟩,
   claim_C2_cascading_delete witSysCD "C" "i" witMemC 3 9 true
     (regOk_of_all (by decide)) (by decide) (by decide) (by decide) (by decide) (by decide)⟩

/-- `_validate_expiration` is the identity when at most one of
`duration` / `end_time` is set — which is every post-constructor
state, since the constructor clears one of them. -/
theorem validate_expiration_id (it : MemoryItem)
    (h : it.duration = none ∨ it.end_time = none) :
    it.validate_expiration = it := by
  rcases h with h | h
  · cases he : it.end_time <;> simp [MemoryItem.validate_expiration, h, he]
  · cases hd : it.duration <;> simp [MemoryItem.validate_expiration, h, hd]

/-- Reconstructing an item during `load` appends exactly one fresh
`"init"` history entry and changes nothing else. -/
theorem mkMemoryItem_of_loaded (it : MemoryItem) (now : Nat)
    (h : it.duration = none ∨ it.end_time = none) :
    mkMemoryItem it now =
      { it with history := it.history ++
          [{ timestamp := now, action := "init", state := it.state, content := it.content }] } := by
  unfold mkMemoryItem
  rw [validate_expiration_id it h]
  rfl

/-- **C4** (corrected, amended).  `load(save(c))` reproduces the
container's uid, forward link table, order list (`item_list`) and root
set (`root_uids`), and every item field-for-field EXCEPT the history
log: reconstructing an item re-runs `model_post_init`, so each loaded
item's history is the saved history plus one extra `"init"` entry
stamped at load time.  The reverse index is reset to empty.  (The
hypothesis that at most one of `duration`/`end_time` is set holds for
every item that went through the constructor, which clears one of
them.) -/
theorem claim_C4_round_trip (m : BaseMemory) (lm : ListMemory) (t : TreeMemory)
    (ty : String) (now : Nat)
    (hm : ∀ kv ∈ m.items, kv.2.duration = none ∨ kv.2.end_time = none)
    (hl : ∀ kv ∈ lm.items, kv.2.duration = none ∨ kv.2.end_time = none)
    (ht : ∀ kv ∈ t.items, kv.2.item.duration = none ∨ kv.2.item.end_time = none) :
    (∃ sys' m', memLoad [] (memSave m ty) now = Except.ok (sys', m') ∧
      m'.uid = m.uid ∧ m'.links = m.links ∧ m'.reverse_links = [] ∧
      m'.items = m.items.map (fun kv => (kv.1, { kv.2 with history := kv.2.history ++
        [{ timestamp := now, action := "init", state := kv.2.state,
           content := kv.2.content }] }))) ∧
    (∃ lsys' lm', listLoad [] (listSave lm) now = Except.ok (lsys', lm') ∧
      lm'.uid = lm.uid ∧ lm'.links = lm.links ∧ lm'.reverse_links = [] ∧
      lm'.item_list = lm.item_list ∧
      lm'.items = lm.items.map (fun kv => (kv.1, { kv.2 with history := kv.2.history ++
        [{ timestamp := now, action := "init", state := kv.2.state,
           content := kv.2.content }] }))) ∧
    (∃ tsys' t', treeLoad [] (treeSave t) now = Except.ok (tsys', t') ∧
      t'.uid = t.uid ∧ t'.links = t.links ∧ t'.reverse_links = [] ∧
      t'.root_uids = t.root_uids ∧
      t'.items = t.items.map (fun kv => (kv.1, { kv.2 with item :=
        { kv.2.item with history := kv.2.item.history ++
          [{ timestamp := now, action := "init", state := kv.2.item.state,
             content := kv.2.item.content }] } }))) := by
  have hbase : memLoad [] (memSave m ty) now =
      Except.ok (putMemory (alInsert m.uid ({ uid := m.uid } : BaseMemory) [])
        ({ uid := m.uid, items := (memSave m ty).items.map (fun kv => (kv.1, mkMemoryItem kv.2 now)), links := m.links } : BaseMemory),
        ({ uid := m.uid, items := (memSave m ty).items.map (fun kv => (kv.1, mkMemoryItem kv.2 now)), links := m.links } : BaseMemory)) := rfl
  have hlist : listLoad [] (listSave lm) now =
      Except.ok (alInsert lm.uid ({ uid := lm.uid, items := (listSave lm).items.map (fun kv => (kv.1, mkMemoryItem kv.2 now)), links := lm.links, item_list := lm.item_list } : ListMemory) [],
        ({ uid := lm.uid, items := (listSave lm).items.map (fun kv => (kv.1, mkMemoryItem kv.2 now)), links := lm.links, item_list := lm.item_list } : ListMemory)) := rfl
  have htree : treeLoad [] (treeSave t) now =
      Except.ok (alInsert t.uid ({ uid := t.uid, items := (treeSave t).items.map (fun kv => (kv.1, mkTreeMemoryItem kv.2 now)), links := t.links, root_uids := t.root_uids } : TreeMemory) [],
        ({ uid := t.uid, items := (treeSave t).items.map (fun kv => (kv.1, mkTreeMemoryItem kv.2 now)), links := t.links, root_uids := t.root_uids } : TreeMemory)) := rfl
  refine ⟨⟨_, _, hbase, rfl, rfl, rfl, ?_⟩, ⟨_, _, hlist, rfl, rfl, rfl, rfl, ?_⟩,
    ⟨_, _, htree, rfl, rfl, rfl, rfl, ?_⟩⟩
  · show (memSave m ty).items.map (fun kv => (kv.1, mkMemoryItem kv.2 now)) = _
    exact List.map_congr_left (fun kv hkv => by
      rw [mkMemoryItem_of_loaded kv.2 now (hm kv hkv)])
  · show (listSave lm).items.map (fun kv => (kv.1, mkMemoryItem kv.2 now)) = _
    exact List.map_congr_left (fun kv hkv => by
      rw [mkMemoryItem_of_loaded kv.2 now (hl kv hkv)])
  · show (treeSave t).items.map (fun kv => (kv.1, mkTreeMemoryItem kv.2 now)) = _
    exact List.map_congr_left (fun kv hkv => by
      show (kv.1, { kv.2 with item := mkMemoryItem kv.2.item now }) = _
      rw [mkMemoryItem_of_loaded kv.2.item now (ht kv hkv)])

/-- Witness containers for the round trip. -/
def witRTm : BaseMemory := { uid := "S", items := [("a", itemOf "a" "v")] }

/-- Witness ordered container for the round trip. -/
def witRTlm : ListMemory :=
  { uid := "L", items := [("a", itemOf "a" "v")], item_list := [some "a"] }

/-- Witness tree container for the round trip. -/
def witRTt : TreeMemory :=
  { uid := "T", items := [("R", treeItemOf "R" "r")], root_uids := ["R"] }

/-- Witness for the amended C4 theorem at concrete one-item
containers of each kind. -/
theorem claim_C4_round_trip_witness :
    ((∀ kv ∈ witRTm.items, kv.2.duration = none ∨ kv.2.end_time = none) ∧
     (∀ kv ∈ witRTlm.items, kv.2.duration = none ∨ kv.2.end_time = none) ∧
     (∀ kv ∈ witRTt.items, kv.2.item.duration = none ∨ kv.2.item.end_time = none)) ∧
    ((∃ sys' m', memLoad [] (memSave witRTm "BaseMemory") 9 = Except.ok (sys', m') ∧
      m'.uid = witRTm.uid ∧ m'.links = witRTm.links ∧ m'.reverse_links = [] ∧
      m'.items = witRTm.items.map (fun kv => (kv.1, { kv.2 with history := kv.2.history ++
        [{ timestamp := 9, action := "init", state := kv.2.state,
           content := kv.2.content }] }))) ∧
    (∃ lsys' lm', listLoad [] (listSave witRTlm) 9 = Except.ok (lsys', lm') ∧
      lm'.uid = witRTlm.uid ∧ lm'.links = witRTlm.links ∧ lm'.reverse_links = [] ∧
      lm'.item_list = witRTlm.item_list ∧
      lm'.items = witRTlm.items.map (fun kv => (kv.1, { kv.2 with history := kv.2.history ++
        [{ timestamp := 9, action := "init", state := kv.2.state,
           content := kv.2.content }] }))) ∧
    (∃ tsys' t', treeLoad [] (treeSave witRTt) 9 = Except.ok (tsys', t') ∧
      t'.uid = witRTt.uid ∧ t'.links = witRTt.links ∧ t'.reverse_links = [] ∧
      t'.root_uids = witRTt.root_uids ∧
      t'.items = witRTt.items.map (fun kv => (kv.1, { kv.2 with item :=
        { kv.2.item with history := kv.2.item.history ++
          [{ timestamp := 9, action := "init", state := kv.2.item.state,
             content := kv.2.item.content }] } })))) :=
  ⟨⟨by decide, by decide, by decide⟩,
   claim_C4_round_trip witRTm witRTlm witRTt "BaseMemory" 9
     (by decide) (by decide) (by decide)⟩

/-! ### Expiration monotonicity machinery -/

/-- Items-map key uniqueness across the registry (true of every state
built by the public operations, which insert via `alInsert`). -/
def ItemsNodup (sys : Registry) : Prop :=
  ∀ u m, alFind u sys = some m → (m.items.map Prod.fst).Nodup

/-- Decidable sufficient check for `ItemsNodup`. -/
theorem itemsNodup_of_all {sys : Registry}
    (h : sys.all (fun kv => decide ((kv.2.items.map Prod.fst).Nodup)) = true) :
    ItemsNodup sys := by
  intro u m hfind
  have := List.all_eq_true.mp h _ (alFind_mem hfind)
  simpa using this

/-- `MemoryItem.read` on an `EXPIRED` item returns the state sentinel
and leaves the item untouched. -/
theorem read_expired (it : MemoryItem) (now : Nat) (rm : Bool)
    (reader : Option String) (av : Option (String × String))
    (hex : it.state = MemoryItemState.EXPIRED) :
    it.read now rm reader av = (MemoryItem.ReadResult.state it.state, it) := by
  simp [MemoryItem.read, hex]

/-- `MemoryItem.modify` on an `EXPIRED` item returns the state
sentinel and leaves the item untouched. -/
theorem modify_expired (it : MemoryItem) (now : Nat) (c : Content)
    (md : Option String) (p : Option MemoryItemModifyProtocol)
    (av : Option (String × String))
    (hex : it.state = MemoryItemState.EXPIRED) :
    it.modify now c md p av = Except.ok (MemoryItem.ModifyResult.state it.state, it) := by
  simp [MemoryItem.modify, hex]

/-- `memReadLocal` never returns an `EXPIRED` item's state to
`NORMAL`: wherever an `EXPIRED` item sits in the registry, it is still
there and still `EXPIRED` after the call (the accessibility gate
refuses to touch it; the only mutation is to the accessible — hence
`NORMAL` — item actually read). -/
theorem memReadLocal_preserves_expired (sys : Registry) (cm : BaseMemory) (ident : String)
    (reader : Option String) (rm rnie : Bool) (av : Option (String × String)) (now : Nat)
    (out : ReadOut) (sys' : Registry)
    (hrun : memReadLocal sys cm ident reader rm rnie av now = Except.ok (out, sys'))
    (hcm : alFind cm.uid sys = some cm)
    {mu k : String} {m : BaseMemory} {it : MemoryItem}
    (hm : alFind mu sys = some m) (hk : alFind k m.items = some it)
    (hex : it.state = MemoryItemState.EXPIRED) :
    ∃ m' it', alFind mu sys' = some m' ∧ alFind k m'.items = some it' ∧
      it'.state = MemoryItemState.EXPIRED := by
  simp only [memReadLocal] at hrun
  split at hrun
  case h_1 item hfound =>
    split at hrun
    · -- inaccessible: no mutation
      split at hrun <;>
        (rw [Except.ok.injEq, Prod.mk.injEq] at hrun; rw [← hrun.2]; exact ⟨m, it, hm, hk, hex⟩)
    · -- accessible item actually read and stored back
      rename_i hacc
      rw [Except.ok.injEq, Prod.mk.injEq] at hrun
      rw [← hrun.2]
      have hacc' : item.is_accessible now = true := by
        revert hacc
        cases item.is_accessible now <;> simp
      by_cases hmu : mu = cm.uid
      · subst hmu
        have hmcm : m = cm := Option.some.inj (hm.symm.trans hcm)
        rw [hmcm] at hk
        by_cases hkid : k = ident
        · subst hkid
          have hit : it = item := Option.some.inj (hk.symm.trans hfound)
          have h1 := (is_accessible_elim hacc').1
          rw [← hit, hex] at h1
          exact absurd h1 (by decide)
        · refine ⟨{ cm with items := alInsert ident (item.read now rm reader av).2 cm.items }, it, ?_, ?_, hex⟩
          · rw [putMemory]
            exact alFind_insert_self _ _ _
          · show alFind k (alInsert ident (item.read now rm reader av).2 cm.items) = some it
            rw [alFind_insert_ne _ _ hkid]
            exact hk
      · refine ⟨m, it, ?_, hk, hex⟩
        rw [putMemory]
        rw [show ({ cm with items := alInsert ident (item.read now rm reader av).2 cm.items } : BaseMemory).uid = cm.uid from rfl]
        rw [alFind_insert_ne _ _ hmu]
        exact hm
  case h_2 hfound =>
    split at hrun
    · rw [Except.ok.injEq, Prod.mk.injEq] at hrun
      rw [← hrun.2]
      exact ⟨m, it, hm, hk, hex⟩
    · exact absurd hrun (by simp)

/-- `BaseMemory.read` never returns an `EXPIRED` item to `NORMAL`,
wherever the item sits in the registry and whatever key is read
(including reads through links). -/
theorem memRead_preserves_expired (sys : Registry) (selfUid ident : String)
    (reader : Option String) (rm rnie : Bool) (av : Option (String × String)) (now : Nat)
    (out : ReadOut) (sys' : Registry)
    (hrun : memRead sys selfUid ident reader rm rnie av now = Except.ok (out, sys'))
    (hreg : RegOk sys)
    {mu k : String} {m : BaseMemory} {it : MemoryItem}
    (hm : alFind mu sys = some m) (hk : alFind k m.items = some it)
    (hex : it.state = MemoryItemState.EXPIRED) :
    ∃ m' it', alFind mu sys' = some m' ∧ alFind k m'.items = some it' ∧
      it'.state = MemoryItemState.EXPIRED := by
  simp only [memRead, getMemory, Except.bind, bind] at hrun
  split at hrun
  · exact absurd hrun (by simp)
  · rename_i cmV heq
    have heqf : alFind selfUid sys = some cmV := by
      cases h : alFind selfUid sys with
      | none => rw [h] at heq; simp at heq
      | some v =>
        rw [h] at heq
        simp only [Except.ok.injEq] at heq
        rw [heq]
    split at hrun
    · rename_i tmu tid hl
      split at hrun
      · exact absurd hrun (by simp)
      · rename_i tm heq2
        split at hrun
        · exact absurd hrun (by simp)
        · split at hrun
          · rename_i tmu2 xx hl2
            split at hrun <;> exact absurd hrun (by simp)
          · exact memReadLocal_preserves_expired sys tm tid reader false true
              (some (cmV.uid, ident)) now out sys' hrun
              (by rw [hreg tmu tm heq2]; exact heq2) hm hk hex
    · exact memReadLocal_preserves_expired sys cmV ident reader rm rnie av now out sys' hrun
        (by rw [hreg selfUid cmV heqf]; exact heqf) hm hk hex

/-- `BaseMemory.modify` never returns an `EXPIRED` item to `NORMAL`,
wherever the item sits in the registry, including recursive
forwarding through links. -/
theorem memModify_preserves_expired : ∀ (fuel : Nat) (sys : Registry)
    (selfUid ident : String) (nc : Content) (rec : Bool) (md : Option String)
    (rfie : Bool) (now : Nat) (out : ModOut) (sys' : Registry),
    memModify sys fuel selfUid ident nc rec md rfie now = Except.ok (out, sys') →
    RegOk sys →
    ∀ (mu k : String) (m : BaseMemory) (it : MemoryItem),
      alFind mu sys = some m → alFind k m.items = some it →
      it.state = MemoryItemState.EXPIRED →
      ∃ m' it', alFind mu sys' = some m' ∧ alFind k m'.items = some it' ∧
        it'.state = MemoryItemState.EXPIRED := by
  intro fuel
  induction fuel with
  | zero =>
    intro sys selfUid ident nc rec md rfie now out sys' hrun
    simp [memModify] at hrun
  | succ fuel ih =>
    intro sys selfUid ident nc rec md rfie now out sys' hrun hreg mu k m it hm hk hex
    simp only [memModify, getMemory, Except.bind, bind] at hrun
    split at hrun
    · exact absurd hrun (by simp)
    · rename_i cmV heqg
      have heqf : alFind selfUid sys = some cmV := by
        cases h : alFind selfUid sys with
        | none => rw [h] at heqg; simp at heqg
        | some v => rw [h] at heqg; simp only [Except.ok.injEq] at heqg; rw [heqg]
      split at hrun
      · exact absurd hrun (by simp)
      · rename_i stepv heqs
        split at hrun
        · -- the step produced a forwarded recursive result
          rename_i r
          rw [Except.ok.injEq] at hrun
          subst hrun
          split at heqs
          · -- rec = true
            simp only [resolveLink] at heqs
            split at heqs
            · exact absurd heqs (by simp)
            · rename_i rl hrl
              split at heqs
              · rename_i tm tid pairx
                split at heqs
                · exact absurd heqs (by simp)
                · rename_i r2 heqr2
                  simp only [Except.ok.injEq, Option.some.injEq] at heqs
                  rw [heqs] at heqr2
                  exact ih sys tm.uid tid nc rec (some cmV.uid) rfie now out sys' heqr2
                    hreg mu k m it hm hk hex
              · exact absurd heqs (by simp)
          · exact absurd heqs (by simp)
        · -- no forwarding: local handling
          split at hrun
          · rw [Except.ok.injEq, Prod.mk.injEq] at hrun
            rw [← hrun.2]
            exact ⟨m, it, hm, hk, hex⟩
          · split at hrun
            · rename_i item hfound
              split at hrun
              · split at hrun <;>
                  (rw [Except.ok.injEq, Prod.mk.injEq] at hrun; rw [← hrun.2];
                   exact ⟨m, it, hm, hk, hex⟩)
              · rename_i hacc
                split at hrun
                · exact absurd hrun (by simp)
                · rename_i r2 heqr2
                  rw [Except.ok.injEq, Prod.mk.injEq] at hrun
                  rw [← hrun.2]
                  have hacc' : item.is_accessible now = true := by
                    revert hacc
                    cases item.is_accessible now <;> simp
                  have hcm : alFind cmV.uid sys = some cmV := by
                    rw [hreg selfUid cmV heqf]; exact heqf
                  by_cases hmu : mu = cmV.uid
                  · subst hmu
                    have hmcm : m = cmV := Option.some.inj (hm.symm.trans hcm)
                    rw [hmcm] at hk
                    by_cases hkid : k = ident
                    · subst hkid
                      have hit : it = item := Option.some.inj (hk.symm.trans hfound)
                      have h1 := (is_accessible_elim hacc').1
                      rw [← hit, hex] at h1
                      exact absurd h1 (by decide)
                    · refine ⟨{ cmV with items := alInsert ident r2.2 cmV.items }, it, ?_, ?_, hex⟩
                      · rw [putMemory]
                        exact alFind_insert_self _ _ _
                      · show alFind k (alInsert ident r2.2 cmV.items) = some it
                        rw [alFind_insert_ne _ _ hkid]
                        exact hk
                  · refine ⟨m, it, ?_, hk, hex⟩
                    rw [putMemory]
                    rw [show ({ cmV with items := alInsert ident r2.2 cmV.items } : BaseMemory).uid = cmV.uid from rfl]
                    rw [alFind_insert_ne _ _ hmu]
                    exact hm
            · split at hrun
              · rw [Except.ok.injEq, Prod.mk.injEq] at hrun
                rw [← hrun.2]
                exact ⟨m, it, hm, hk, hex⟩
              · exact absurd hrun (by simp)

/-- `revoke_link` never touches any `items` map (it trims link tables
and reverse buckets only). -/
theorem revokeLink_items (sys : Registry) (selfUid ident : String) (sys' : Registry)
    (hrun : revokeLink sys selfUid ident = Except.ok sys') (hreg : RegOk sys) :
    RegOk sys' ∧
      ∀ u, (alFind u sys').map (fun mm => mm.items) =
        (alFind u sys).map (fun mm => mm.items) := by
  simp only [revokeLink, getMemory, Except.bind, bind] at hrun
  split at hrun
  · exact absurd hrun (by simp)
  · rename_i cmV heqg
    have heqf : alFind selfUid sys = some cmV := by
      cases h : alFind selfUid sys with
      | none => rw [h] at heqg; simp at heqg
      | some v => rw [h] at heqg; simp only [Except.ok.injEq] at heqg; rw [heqg]
    have hcu : cmV.uid = selfUid := hreg selfUid cmV heqf
    split at hrun
    · rw [Except.ok.injEq] at hrun
      rw [← hrun]
      exact ⟨hreg, fun _ => rfl⟩
    · rename_i tmu tid hl
      split at hrun
      · -- the link points back at this very container
        rename_i htm
        rw [Except.ok.injEq] at hrun
        rw [← hrun]
        constructor
        · intro u mm hf
          rw [putMemory] at hf
          by_cases hu : u = cmV.uid
          · rw [show ({ cmV with links := alErase ident cmV.links, reverse_links := alInsert selfUid (((alFind selfUid cmV.reverse_links).getD []).filter (fun p => p.1 ≠ ident)) cmV.reverse_links } : BaseMemory).uid = cmV.uid from rfl] at hf
            rw [hu, alFind_insert_self] at hf
            rw [← Option.some.inj hf, hu]
          · rw [show ({ cmV with links := alErase ident cmV.links, reverse_links := alInsert selfUid (((alFind selfUid cmV.reverse_links).getD []).filter (fun p => p.1 ≠ ident)) cmV.reverse_links } : BaseMemory).uid = cmV.uid from rfl] at hf
            rw [alFind_insert_ne _ _ hu] at hf
            exact hreg u mm hf
        · intro u
          rw [putMemory]
          rw [show ({ cmV with links := alErase ident cmV.links, reverse_links := alInsert selfUid (((alFind selfUid cmV.reverse_links).getD []).filter (fun p => p.1 ≠ ident)) cmV.reverse_links } : BaseMemory).uid = cmV.uid from rfl]
          by_cases hu : u = cmV.uid
          · rw [hu, alFind_insert_self]
            rw [hu] at *
            rw [show alFind cmV.uid sys = some cmV from by rw [hcu]; exact heqf]
            rfl
          · rw [alFind_insert_ne _ _ hu]
      · -- remote owner
        split at hrun
        · exact absurd hrun (by simp)
        · rename_i tm htm
          have htmf : alFind tmu (putMemory sys { cmV with links := alErase ident cmV.links }) = some tm := by
            revert htm
            cases h : alFind tmu (putMemory sys { cmV with links := alErase ident cmV.links }) with
            | none => simp
            | some v => simp only [Except.ok.injEq]; intro hh; rw [hh]
          have hreg1 : RegOk (putMemory sys { cmV with links := alErase ident cmV.links }) := by
            intro u mm hf
            rw [putMemory] at hf
            rw [show ({ cmV with links := alErase ident cmV.links } : BaseMemory).uid = cmV.uid from rfl] at hf
            by_cases hu : u = cmV.uid
            · rw [hu, alFind_insert_self] at hf
              rw [← Option.some.inj hf, hu]
            · rw [alFind_insert_ne _ _ hu] at hf
              exact hreg u mm hf
          have hproj1 : ∀ u, (alFind u (putMemory sys { cmV with links := alErase ident cmV.links })).map (fun mm => mm.items) = (alFind u sys).map (fun mm => mm.items) := by
            intro u
            rw [putMemory]
            rw [show ({ cmV with links := alErase ident cmV.links } : BaseMemory).uid = cmV.uid from rfl]
            by_cases hu : u = cmV.uid
            · rw [hu, alFind_insert_self]
              rw [show alFind cmV.uid sys = some cmV from by rw [hcu]; exact heqf]
              rfl
            · rw [alFind_insert_ne _ _ hu]
          rw [Except.ok.injEq] at hrun
          rw [← hrun]
          have htmu : tm.uid = tmu := hreg1 tmu tm htmf
          constructor
          · intro u mm hf
            rw [putMemory] at hf
            rw [show ({ tm with reverse_links := alInsert selfUid (((alFind selfUid tm.reverse_links).getD []).filter (fun p => p.1 ≠ ident)) tm.reverse_links } : BaseMemory).uid = tm.uid from rfl] at hf
            by_cases hu : u = tm.uid
            · rw [hu, alFind_insert_self] at hf
              rw [← Option.some.inj hf, hu]
            · rw [alFind_insert_ne _ _ hu] at hf
              exact hreg1 u mm hf
          · intro u
            rw [putMemory]
            rw [show ({ tm with reverse_links := alInsert selfUid (((alFind selfUid tm.reverse_links).getD []).filter (fun p => p.1 ≠ ident)) tm.reverse_links } : BaseMemory).uid = tm.uid from rfl]
            by_cases hu : u = tm.uid
            · rw [hu, alFind_insert_self, ← hproj1 tm.uid]
              rw [htmu, htmf]
              rfl
            · rw [alFind_insert_ne _ _ hu]
              exact hproj1 u

/-- The cascading-invalidation loop never touches any `items` map. -/
theorem stripLinksTo_items (c i : String) : ∀ (keys : List String) (sys sys' : Registry),
    stripLinksTo c i sys keys = Except.ok sys' → RegOk sys →
    RegOk sys' ∧
      ∀ u, (alFind u sys').map (fun mm => mm.items) =
        (alFind u sys).map (fun mm => mm.items)
  | [], sys, sys', hrun, hreg => by
    simp only [stripLinksTo, Except.ok.injEq] at hrun
    rw [← hrun]
    exact ⟨hreg, fun _ => rfl⟩
  | u0 :: rest, sys, sys', hrun, hreg => by
    simp only [stripLinksTo, getMemory, Except.bind, bind] at hrun
    split at hrun
    · exact absurd hrun (by simp)
    · rename_i mem heqg
      have heqf : alFind u0 sys = some mem := by
        cases h : alFind u0 sys with
        | none => rw [h] at heqg; simp at heqg
        | some v => rw [h] at heqg; simp only [Except.ok.injEq] at heqg; rw [heqg]
      have hcu : mem.uid = u0 := hreg u0 mem heqf
      have hreg1 : RegOk (putMemory sys { mem with links := mem.links.filter (fun kv => kv.2 ≠ (c, i)) }) := by
        intro u mm hf
        rw [putMemory] at hf
        rw [show ({ mem with links := mem.links.filter (fun kv => kv.2 ≠ (c, i)) } : BaseMemory).uid = mem.uid from rfl] at hf
        by_cases hu : u = mem.uid
        · rw [hu, alFind_insert_self] at hf
          rw [← Option.some.inj hf, hu]
        · rw [alFind_insert_ne _ _ hu] at hf
          exact hreg u mm hf
      obtain ⟨hreg', hproj⟩ := stripLinksTo_items c i rest _ sys' hrun hreg1
      refine ⟨hreg', fun u => ?_⟩
      rw [hproj u, putMemory]
      rw [show ({ mem with links := mem.links.filter (fun kv => kv.2 ≠ (c, i)) } : BaseMemory).uid = mem.uid from rfl]
      by_cases hu : u = mem.uid
      · rw [hu, alFind_insert_self]
        rw [show alFind mem.uid sys = some mem from by rw [hcu]; exact heqf]
        rfl
      · rw [alFind_insert_ne _ _ hu]

/-- The local part of `BaseMemory.delete`: wherever an `EXPIRED` item
sits, after the call it is either gone (it was the deleted one) or
unchanged and still `EXPIRED`; no item anywhere returns to `NORMAL`. -/
theorem memDeleteLocal_preserves_expired (sys : Registry) (selfUid ident : String)
    (rfie : Bool) (now : Nat) (b : Bool) (sys' : Registry)
    (hrun : memDeleteLocal sys selfUid ident rfie now = Except.ok (sys', b))
    (hreg : RegOk sys) (hnd : ItemsNodup sys)
    {mu k : String} {m : BaseMemory} {it : MemoryItem}
    (hm : alFind mu sys = some m) (hk : alFind k m.items = some it)
    (hex : it.state = MemoryItemState.EXPIRED) :
    ∃ m', alFind mu sys' = some m' ∧
      (alFind k m'.items = none ∨
        ∃ it', alFind k m'.items = some it' ∧ it'.state = MemoryItemState.EXPIRED) := by
  simp only [memDeleteLocal, getMemory, Except.bind, bind] at hrun
  split at hrun
  · exact absurd hrun (by simp)
  · rename_i cmV heqg
    have heqf : alFind selfUid sys = some cmV := by
      cases h : alFind selfUid sys with
      | none => rw [h] at heqg; simp at heqg
      | some v => rw [h] at heqg; simp only [Except.ok.injEq] at heqg; rw [heqg]
    have hcu : cmV.uid = selfUid := hreg selfUid cmV heqf
    split at hrun
    · -- owned item: strip then erase
      split at hrun
      · exact absurd hrun (by simp)
      · rename_i sys1 hstrip
        obtain ⟨hreg1, hproj1⟩ := stripLinksTo_items selfUid ident _ sys sys1 hstrip hreg
        split at hrun
        · exact absurd hrun (by simp)
        · rename_i C2 heqg2
          have heqf2 : alFind selfUid sys1 = some C2 := by
            cases h : alFind selfUid sys1 with
            | none => rw [h] at heqg2; simp at heqg2
            | some v => rw [h] at heqg2; simp only [Except.ok.injEq] at heqg2; rw [heqg2]
          have hC2u : C2.uid = selfUid := hreg1 selfUid C2 heqf2
          have hC2items : C2.items = cmV.items := by
            have := hproj1 selfUid
            rw [heqf2, heqf] at this
            simpa using this
          rw [Except.ok.injEq, Prod.mk.injEq] at hrun
          rw [← hrun.1]
          by_cases hmu : mu = selfUid
          · subst hmu
            have hmcm : m = cmV := Option.some.inj (hm.symm.trans heqf)
            refine ⟨{ C2 with items := alErase ident C2.items }, ?_, ?_⟩
            · rw [putMemory]
              rw [show ({ C2 with items := alErase ident C2.items } : BaseMemory).uid = C2.uid from rfl]
              rw [hC2u, alFind_insert_self]
            · by_cases hkid : k = ident
              · subst hkid
                left
                show alFind k (alErase k C2.items) = none
                rw [hC2items, ← hmcm]
                exact alFind_erase_self (by rw [hmcm]; exact hnd mu cmV heqf)
              · right
                refine ⟨it, ?_, hex⟩
                show alFind k (alErase ident C2.items) = some it
                rw [alFind_erase_ne _ hkid, hC2items, ← hmcm]
                exact hk
          · obtain ⟨m1, hm1, hm1items⟩ :
                ∃ m1, alFind mu sys1 = some m1 ∧ m1.items = m.items := by
              have := hproj1 mu
              rw [hm] at this
              cases h1 : alFind mu sys1 with
              | none => rw [h1] at this; simp at this
              | some m1 =>
                rw [h1] at this
                simp only [Option.map_some', Option.some.injEq] at this
                exact ⟨m1, rfl, this⟩
            refine ⟨m1, ?_, Or.inr ⟨it, ?_, hex⟩⟩
            · rw [putMemory]
              rw [show ({ C2 with items := alErase ident C2.items } : BaseMemory).uid = C2.uid from rfl]
              rw [hC2u, alFind_insert_ne _ _ hmu]
              exact hm1
            · rw [hm1items]
              exact hk
    · -- unknown identifier
      split at hrun
      · rw [Except.ok.injEq, Prod.mk.injEq] at hrun
        rw [← hrun.1]
        exact ⟨m, hm, Or.inr ⟨it, hk, hex⟩⟩
      · exact absurd hrun (by simp)

/-- `BaseMemory.delete` (any flags): wherever an `EXPIRED` item sits,
after the call it is either gone or unchanged and still `EXPIRED`. -/
theorem memDelete_preserves_expired : ∀ (fuel : Nat) (sys : Registry)
    (selfUid ident : String) (rec rfie : Bool) (now : Nat) (b : Bool) (sys' : Registry),
    memDelete sys fuel selfUid ident rec rfie now = Except.ok (sys', b) →
    RegOk sys → ItemsNodup sys →
    ∀ (mu k : String) (m : BaseMemory) (it : MemoryItem),
      alFind mu sys = some m → alFind k m.items = some it →
      it.state = MemoryItemState.EXPIRED →
      ∃ m', alFind mu sys' = some m' ∧
        (alFind k m'.items = none ∨
          ∃ it', alFind k m'.items = some it' ∧ it'.state = MemoryItemState.EXPIRED) := by
  intro fuel
  induction fuel with
  | zero =>
    intro sys selfUid ident rec rfie now b sys' hrun
    simp [memDelete] at hrun
  | succ fuel ih =>
    intro sys selfUid ident rec rfie now b sys' hrun hreg hnd mu k m it hm hk hex
    simp only [memDelete, getMemory, Except.bind, bind] at hrun
    split at hrun
    · exact absurd hrun (by simp)
    · rename_i cmV heqg
      split at hrun
      · -- recursive=True: resolve and possibly forward
        simp only [resolveLink] at hrun
        split at hrun
        · exact absurd hrun (by simp)
        · rename_i rl hrl
          split at hrun
          · rename_i tm tid pairx
            exact ih sys tm.uid tid rec rfie now b sys' hrun hreg hnd mu k m it hm hk hex
          · exact memDeleteLocal_preserves_expired sys selfUid ident rfie now b sys' hrun
              hreg hnd hm hk hex
      · -- recursive=False
        split at hrun
        · -- link key: revoke
          split at hrun
          · exact absurd hrun (by simp)
          · rename_i sys1 hrev
            rw [Except.ok.injEq, Prod.mk.injEq] at hrun
            rw [← hrun.1]
            obtain ⟨_, hproj⟩ := revokeLink_items sys selfUid ident sys1 hrev hreg
            obtain ⟨m1, hm1, hm1items⟩ :
                ∃ m1, alFind mu sys1 = some m1 ∧ m1.items = m.items := by
              have := hproj mu
              rw [hm] at this
              cases h1 : alFind mu sys1 with
              | none => rw [h1] at this; simp at this
              | some m1 =>
                rw [h1] at this
                simp only [Option.map_some', Option.some.injEq] at this
                exact ⟨m1, rfl, this⟩
            refine ⟨m1, hm1, Or.inr ⟨it, ?_, hex⟩⟩
            rw [hm1items]
            exact hk
        · exact memDeleteLocal_preserves_expired sys selfUid ident rfie now b sys' hrun
            hreg hnd hm hk hex

/-- **C8** (corrected, amended).  Once an item's state is `EXPIRED` it
never returns to `NORMAL` under `read`, `modify` or `delete`: at item
level both operations return the state sentinel and leave the item
untouched, and at container level (for any read — including through
links — any modify — including recursive forwarding — and any delete)
the expired item, wherever it is registered, either survives with
state still `EXPIRED` or (for delete only) is removed.  However, the
`WRITING` → `NORMAL` handshake of `BaseMemory.add` is run on WHATEVER
item the caller hands in, not only fresh ones: adding this expired
item to any container stores it with state `NORMAL` — the upward
transition the claim rules out (see the counterexample). -/
theorem claim_C8_expired_monotone (sys : Registry) (mu k : String)
    (m : BaseMemory) (it : MemoryItem)
    (hreg : RegOk sys) (hnd : ItemsNodup sys)
    (hm : alFind mu sys = some m) (hk : alFind k m.items = some it)
    (hex : it.state = MemoryItemState.EXPIRED) :
    (∀ (now : Nat) (rm : Bool) (reader : Option String) (av : Option (String × String)),
      it.read now rm reader av = (MemoryItem.ReadResult.state it.state, it)) ∧
    (∀ (now : Nat) (nc : Content) (md : Option String)
        (p : Option MemoryItemModifyProtocol) (av : Option (String × String)),
      it.modify now nc md p av = Except.ok (MemoryItem.ModifyResult.state it.state, it)) ∧
    (∀ (selfUid ident : String) (reader : Option String) (rm rnie : Bool)
        (av : Option (String × String)) (now : Nat) (out : ReadOut) (sys' : Registry),
      memRead sys selfUid ident reader rm rnie av now = Except.ok (out, sys') →
      ∃ m' it', alFind mu sys' = some m' ∧ alFind k m'.items = some it' ∧
        it'.state = MemoryItemState.EXPIRED) ∧
    (∀ (fuel : Nat) (selfUid ident : String) (nc : Content) (rec : Bool)
        (md : Option String) (rfie : Bool) (now : Nat) (out : ModOut) (sys' : Registry),
      memModify sys fuel selfUid ident nc rec md rfie now = Except.ok (out, sys') →
      ∃ m' it', alFind mu sys' = some m' ∧ alFind k m'.items = some it' ∧
        it'.state = MemoryItemState.EXPIRED) ∧
    (∀ (fuel : Nat) (selfUid ident : String) (rec rfie : Bool) (now : Nat)
        (b : Bool) (sys' : Registry),
      memDelete sys fuel selfUid ident rec rfie now = Except.ok (sys', b) →
      ∃ m', alFind mu sys' = some m' ∧
        (alFind k m'.items = none ∨
          ∃ it', alFind k m'.items = some it' ∧ it'.state = MemoryItemState.EXPIRED)) ∧
    (∀ (sys2 : Registry) (selfUid : String) (now : Nat) (sys2' : Registry) (uid : String),
      RegOk sys2 →
      memAdd sys2 selfUid it now = Except.ok (sys2', uid) →
      (alFind selfUid sys2').map
        (fun mm => (alFind uid mm.items).map (fun st => st.state)) =
        some (some MemoryItemState.NORMAL)) := by
  refine ⟨fun now rm reader av => read_expired it now rm reader av hex,
    fun now nc md p av => modify_expired it now nc md p av hex,
    fun selfUid ident reader rm rnie av now out sys' hrun =>
      memRead_preserves_expired sys selfUid ident reader rm rnie av now out sys' hrun hreg
        hm hk hex,
    fun fuel selfUid ident nc rec md rfie now out sys' hrun =>
      memModify_preserves_expired fuel sys selfUid ident nc rec md rfie now out sys' hrun
        hreg mu k m it hm hk hex,
    fun fuel selfUid ident rec rfie now b sys' hrun =>
      memDelete_preserves_expired fuel sys selfUid ident rec rfie now b sys' hrun
        hreg hnd mu k m it hm hk hex,
    ?_⟩
  intro sys2 selfUid now sys2' uid hreg2 hrun
  simp only [memAdd, getMemory, Except.bind, bind] at hrun
  split at hrun
  · exact absurd hrun (by simp)
  · rename_i m2 heqg
    have heqf : alFind selfUid sys2 = some m2 := by
      cases h : alFind selfUid sys2 with
      | none => rw [h] at heqg; simp at heqg
      | some v => rw [h] at heqg; simp only [Except.ok.injEq] at heqg; rw [heqg]
    have hcu : m2.uid = selfUid := hreg2 selfUid m2 heqf
    split at hrun
    · exact absurd hrun (by simp)
    · rw [Except.ok.injEq, Prod.mk.injEq] at hrun
      rw [← hrun.1, ← hrun.2, putMemory]
      rw [show ({ m2 with items := alInsert (({ it with state := MemoryItemState.NORMAL }.update_history now "added" none none none none).uid) ({ it with state := MemoryItemState.NORMAL }.update_history now "added" none none none none) m2.items } : BaseMemory).uid = m2.uid from rfl]
      rw [hcu, alFind_insert_self]
      simp only [Option.map_some']
      rw [alFind_insert_self]
      rfl

/-- A caller-visible expired item (as produced e.g. by a
burn-after-read read). -/
def expItem : MemoryItem := { itemOf "e" "x" with state := MemoryItemState.EXPIRED }

/-- Witness container holding the expired item. -/
def witMemE : BaseMemory := { uid := "E", items := [("e", expItem)] }

/-- Witness registry for expiration monotonicity. -/
def witSysE : Registry := [("E", witMemE)]

/-- Witness for the amended C8 theorem at a concrete registry holding
one expired item. -/
theorem claim_C8_expired_monotone_witness :
    (RegOk witSysE ∧ ItemsNodup witSysE ∧ alFind "E" witSysE = some witMemE ∧
     alFind "e" witMemE.items = some expItem ∧
     expItem.state = MemoryItemState.EXPIRED) ∧
    ((∀ (now : Nat) (rm : Bool) (reader : Option String) (av : Option (String × String)),
      expItem.read now rm reader av = (MemoryItem.ReadResult.state expItem.state, expItem)) ∧
    (∀ (now : Nat) (nc : Content) (md : Option String)
        (p : Option MemoryItemModifyProtocol) (av : Option (String × String)),
      expItem.modify now nc md p av =
        Except.ok (MemoryItem.ModifyResult.state expItem.state, expItem)) ∧
    (∀ (selfUid ident : String) (reader : Option String) (rm rnie : Bool)
        (av : Option (String × String)) (now : Nat) (out : ReadOut) (sys' : Registry),
      memRead witSysE selfUid ident reader rm rnie av now = Except.ok (out, sys') →
      ∃ m' it', alFind "E" sys' = some m' ∧ alFind "e" m'.items = some it' ∧
        it'.state = MemoryItemState.EXPIRED) ∧
    (∀ (fuel : Nat) (selfUid ident : String) (nc : Content) (rec : Bool)
        (md : Option String) (rfie : Bool) (now : Nat) (out : ModOut) (sys' : Registry),
      memModify witSysE fuel selfUid ident nc rec md rfie now = Except.ok (out, sys') →
      ∃ m' it', alFind "E" sys' = some m' ∧ alFind "e" m'.items = some it' ∧
        it'.state = MemoryItemState.EXPIRED) ∧
    (∀ (fuel : Nat) (selfUid ident : String) (rec rfie : Bool) (now : Nat)
        (b : Bool) (sys' : Registry),
      memDelete witSysE fuel selfUid ident rec rfie now = Except.ok (sys', b) →
      ∃ m', alFind "E" sys' = some m' ∧
        (alFind "e" m'.items = none ∨
          ∃ it', alFind "e" m'.items = some it' ∧ it'.state = MemoryItemState.EXPIRED)) ∧
    (∀ (sys2 : Registry) (selfUid : String) (now : Nat) (sys2' : Registry) (uid : String),
      RegOk sys2 →
      memAdd sys2 selfUid expItem now = Except.ok (sys2', uid) →
      (alFind selfUid sys2').map
        (fun mm => (alFind uid mm.items).map (fun st => st.state)) =
        some (some MemoryItemState.NORMAL))) :=
  ⟨⟨regOk_of_all (by decide), itemsNodup_of_all (by decide), by decide, by decide, by decide⟩,
   claim_C8_expired_monotone witSysE "E" "e" witMemE expItem
     (regOk_of_all (by decide)) (itemsNodup_of_all (by decide))
     (by decide) (by decide) (by decide)⟩

end IGym
